import Mathlib

/-!
Shallow embedding of the Homa RPC lifecycle core (src/homa_utils.c) and of
the zero-copy receive-buffer pool. The pool implementation file
(homa_pool.c) is absent from the repository: it is modelled from the spec
(section 4.3), with the parameters the spec leaves open fixed by the
repository's own unit tests in src/test/unit_homa_pool.c.

RPC records are named by tokens (allocation order numbers) standing for the
C heap pointers; a socket state maps a token to the record it points at
(`none` = freed memory). Operations are atomic steps: the "quiescent
moments" of the spec are the states between steps.
-/

namespace Homa

/-- Size of the 64-bit id space: ids live in `__u64` registers. -/
def U64 : Nat := 2 ^ 64

/-- RPC states of the `state` field of struct homa_rpc (RPC_OUTGOING,
RPC_INCOMING, RPC_IN_SERVICE, RPC_DEAD). -/
inductive RpcState where
  | outgoing
  | incoming
  | inService
  | dead
deriving DecidableEq, Repr

/-- Sentinel value stored in rpc->magic at creation and zeroed by the reaper;
homa_impl.h (which holds the concrete constant) is not in the repository, so
an arbitrary nonzero value is used; nothing depends on it. -/
def HOMA_RPC_MAGIC : Nat := 0xcafe

/-- Fields of struct homa_rpc that the functions of homa_utils.c touch.
The atomic flag bits RPC_PKTS_READY and RPC_CANT_REAP are modelled as
booleans because homa_impl.h (which assigns the bit values) is not in the
repository; `cantReap` stands for `atomic_read(&rpc->flags) & RPC_CANT_REAP`.
`msgoutLen`/`msginLen` of -1 mean "no message yet", as in the C code.
`msgoutPkts` counts the sk_buffs chained on msgout.packets (the C code keeps
msgout.num_skbs in lockstep with that chain, so one counter models both);
`msginPkts` is skb_queue_len(&msgin.packets). -/
structure Rpc where
  id : Nat
  state : RpcState
  dport : Nat
  peer : Nat
  magic : Nat
  pktsReady : Bool
  cantReap : Bool
  grantsInProgress : Nat
  activeXmits : Nat
  msgoutLen : Int
  msgoutPkts : Nat
  msginLen : Int
  msginPkts : Nat
  msginNumBpages : Nat
deriving DecidableEq, Repr

/-- Bucket count of each of the two per-socket RPC hash tables. Modelled
from the spec: homa_impl.h with homa_client_rpc_bucket is not in the
repository; the spec (section 4.1) fixes bucket assignment as deterministic
from the id (`id % num_buckets`), with disjoint client and server tables.
The exact count is irrelevant to the claims. -/
def NUM_BUCKETS : Nat := 1024

/-- State of one homa_sock together with the homa-wide fields that
homa_utils.c reads through it (next_outgoing_id, max_dead_buffs,
protect_count). `nextOutgoingId` is the mathematical (unwrapped) value of
the atomic64 counter; the register holds it mod 2^64 and
homa_rpc_new_client reads it so. -/
structure Sock where
  shutdown : Bool
  protectCount : Nat
  deadSkbs : Int
  maxDeadBuffs : Int
  clientBuckets : Nat → List Nat
  serverBuckets : Nat → List Nat
  activeRpcs : List Nat
  deadRpcs : List Nat
  recs : Nat → Option Rpc
  nextToken : Nat
  nextOutgoingId : Nat

/-- State of a fresh socket on a freshly initialized homa: all lists empty,
shutdown clear, and next_outgoing_id = 2 as set by
`atomic64_set(&homa->next_outgoing_id, 2)` in homa_init
(src/homa_utils.c:96). -/
def initSock : Sock where
  shutdown := false
  protectCount := 0
  deadSkbs := 0
  maxDeadBuffs := 0
  clientBuckets := fun _ => []
  serverBuckets := fun _ => []
  activeRpcs := []
  deadRpcs := []
  recs := fun _ => none
  nextToken := 0
  nextOutgoingId := 2

/-- Error returns of the modelled functions (negative errnos in C). -/
inductive Err where
  | enomem
  | eshutdown
  | epeer
  | msginFail
  | einval
deriving DecidableEq, Repr

/-- Arguments of homa_rpc_new_client: destination address and port, plus the
outcomes of the two fallible external calls the function makes (kmalloc and
homa_peer_find). -/
structure NewClientArgs where
  destAddr : Nat
  destPort : Nat
  allocOk : Bool
  peerOk : Bool

/-- Socket state after a successful publication by homa_rpc_new_client:
the id counter fetch-added by 2 (line 265), the fresh record (state
OUTGOING, id from the counter, empty msgin/msgout) entered in the heap,
pushed on the head of its client bucket (hlist_add_head, line 310) and
appended to the active list (list_add_tail_rcu, line 311). -/
def newClientPublish (s : Sock) (a : NewClientArgs) : Sock :=
  let id := s.nextOutgoingId % U64
  let t := s.nextToken
  let crpc : Rpc :=
    { id := id, state := .outgoing, dport := a.destPort
      peer := a.destAddr, magic := HOMA_RPC_MAGIC
      pktsReady := false, cantReap := false
      grantsInProgress := 0, activeXmits := 0
      msgoutLen := -1, msgoutPkts := 0
      msginLen := -1, msginPkts := 0, msginNumBpages := 0 }
  { s with
    nextOutgoingId := s.nextOutgoingId + 2
    recs := fun u => if u = t then some crpc else s.recs u
    clientBuckets := fun i =>
      if i = id % NUM_BUCKETS then t :: s.clientBuckets i
      else s.clientBuckets i
    activeRpcs := s.activeRpcs ++ [t]
    nextToken := t + 1 }

/-- Transcription of homa_rpc_new_client (src/homa_utils.c:251). The id is
taken by fetch-and-add 2 on next_outgoing_id (line 265) before the error
checks, so every return after a successful kmalloc — peer failure, shutdown
or publication — leaves the counter advanced. Under the bucket and socket
locks the shutdown flag is re-checked (line 304): if set, the locks are
released, the record is freed and -ESHUTDOWN returned without touching the
lists; otherwise the record is published. -/
def homa_rpc_new_client (s : Sock) (a : NewClientArgs) :
    Except Err Nat × Sock :=
  if a.allocOk = false then (.error .enomem, s)
  else if a.peerOk = false then
    (.error .epeer, { s with nextOutgoingId := s.nextOutgoingId + 2 })
  else if s.shutdown then
    (.error .eshutdown, { s with nextOutgoingId := s.nextOutgoingId + 2 })
  else (.ok s.nextToken, newClientPublish s a)

/-- Transcription of homa_find_client_rpc (src/homa_utils.c:739): lock the
bucket for `id` in the client table, scan it for a record whose id matches,
return it still locked, or NULL. -/
def homa_find_client_rpc (s : Sock) (id : Nat) : Option Nat :=
  (s.clientBuckets (id % NUM_BUCKETS)).find? fun t =>
    match s.recs t with
    | some r => r.id == id
    | none => false

/-- Transcription of homa_find_server_rpc (src/homa_utils.c:765): scan the
server bucket for `id` for a record matching (id, sport, peer address). The
identical scan opens homa_rpc_new_server (lines 350-360). -/
def homa_find_server_rpc (s : Sock) (saddr sport id : Nat) : Option Nat :=
  (s.serverBuckets (id % NUM_BUCKETS)).find? fun t =>
    match s.recs t with
    | some r => r.id == id && r.dport == sport && r.peer == saddr
    | none => false

/-- Arguments of homa_rpc_new_server: source address and the fields the
function reads from the first data header, plus outcomes of the external
calls (kmalloc, homa_peer_find, homa_message_in_init). `msginBpages` is the
number of bpages homa_message_in_init obtained for the message. -/
structure NewServerArgs where
  sourceAddr : Nat
  sport : Nat
  id : Nat
  messageLength : Int
  segOffset : Nat
  msginBpages : Nat
  allocOk : Bool
  peerOk : Bool
  msginOk : Bool

/-- Socket state after a successful publication by homa_rpc_new_server:
the fresh record (state INCOMING, id/dport/peer from the header and source,
msgin initialized by homa_message_in_init, RPC_PKTS_READY set when the
first packet is at offset 0 and msgin obtained buffers) pushed on its
server bucket and appended to the active list (lines 411-416). -/
def newServerPublish (s : Sock) (a : NewServerArgs) : Sock :=
  let t := s.nextToken
  let srpc : Rpc :=
    { id := a.id, state := .incoming, dport := a.sport
      peer := a.sourceAddr, magic := HOMA_RPC_MAGIC
      pktsReady := a.segOffset == 0 && 0 < a.msginBpages
      cantReap := false, grantsInProgress := 0, activeXmits := 0
      msgoutLen := -1, msgoutPkts := 0
      msginLen := a.messageLength, msginPkts := 0
      msginNumBpages := a.msginBpages }
  { s with
    recs := fun u => if u = t then some srpc else s.recs u
    serverBuckets := fun i =>
      if i = a.id % NUM_BUCKETS then t :: s.serverBuckets i
      else s.serverBuckets i
    activeRpcs := s.activeRpcs ++ [t]
    nextToken := t + 1 }

/-- Transcription of homa_rpc_new_server (src/homa_utils.c:337). Under the
bucket lock the bucket is scanned first: an existing match is returned with
created = false (lines 350-360). Otherwise a record is allocated and
initialized; any external failure (kmalloc, peer lookup, msgin init)
unlocks and frees without publishing. Under the socket lock shutdown is
re-checked (line 406): if set, the partially initialized record is
destroyed and -ESHUTDOWN returned; otherwise the record is published. -/
def homa_rpc_new_server (s : Sock) (a : NewServerArgs) :
    Except Err (Nat × Bool) × Sock :=
  match homa_find_server_rpc s a.sourceAddr a.sport a.id with
  | some t => (.ok (t, false), s)
  | none =>
    if a.allocOk = false then (.error .enomem, s)
    else if a.peerOk = false then (.error .epeer, s)
    else if a.msginOk = false then (.error .msginFail, s)
    else if s.shutdown then (.error .eshutdown, s)
    else (.ok (s.nextToken, true), newServerPublish s a)

/-- Unlinking step of homa_rpc_free for a live record: state set to
RPC_DEAD, the record removed from its bucket list (__hlist_del), from the
active list (list_del_rcu) and from the ready/buf lists, appended to the
dead list, and dead_skbs/max_dead_buffs accounting updated
(src/homa_utils.c:521-565). -/
def freeUnlink (s : Sock) (t : Nat) (r : Rpc) : Sock :=
  let r1 := { r with state := RpcState.dead }
  let newDead : Int := s.deadSkbs
      + (if 0 ≤ r.msginLen then (r.msginPkts : Int) else 0)
      + (r.msgoutPkts : Int)
  { s with
    recs := fun u => if u = t then some r1 else s.recs u
    clientBuckets := fun i => (s.clientBuckets i).filter (fun u => u != t)
    serverBuckets := fun i => (s.serverBuckets i).filter (fun u => u != t)
    activeRpcs := s.activeRpcs.filter (fun u => u != t)
    deadRpcs := s.deadRpcs ++ [t]
    deadSkbs := newDead
    maxDeadBuffs := if s.maxDeadBuffs < newDead then newDead
                    else s.maxDeadBuffs }

/-- Transcription of homa_rpc_free (src/homa_utils.c:501). The argument is
the C pointer: `none` models NULL, and the function returns at once for
NULL or an already-DEAD record (line 517); otherwise it makes the record
unreachable as in `freeUnlink`. The grant-scheduler release, interest
wakeup and throttle removal touch only external state; gap records are
owned by the RPC and freeing them is unobservable here. A dangling token
(recs = none) is a freed C pointer, which homa_rpc_free must never see;
the model returns the state unchanged there. -/
def homa_rpc_free (s : Sock) (rpc : Option Nat) : Sock :=
  match rpc with
  | none => s
  | some t =>
    match s.recs t with
    | none => s
    | some r =>
      if r.state = RpcState.dead then s else freeUnlink s t r

/-- Reap-blocking test of homa_rpc_reap (src/homa_utils.c:625-632): a dead
RPC is skipped while RPC_CANT_REAP is set in its flags, grants_in_progress
is nonzero, or msgout.active_xmits is nonzero. -/
def reapBlocked (r : Rpc) : Bool :=
  r.cantReap || r.grantsInProgress != 0 || r.activeXmits != 0

/-- Batch size cap of homa_rpc_reap: 20 in production builds, 3 under
__UNIT_TEST__ (src/homa_utils.c:587-591). The production value is used;
none of the claims depends on which. -/
def BATCH_MAX : Nat := 20

/-- Result of one walk of the dead list inside homa_rpc_reap: the
accumulated skb and RPC counts, the collected (unlinked) records, the dead
list as left by the walk, and the record heap with the drains applied. -/
structure WalkRes where
  numSkbs : Nat
  numRpcs : Nat
  rxFrees : Nat
  reaped : List Nat
  kept : List Nat
  recs : Nat → Option Rpc

/-- Record as the reap walk leaves a fully drained record: magic zeroed, tx
chain emptied when a msgout exists (lines 633-649), rx queue emptied when a
msgin exists (lines 656-666). -/
def drainRec (r : Rpc) : Rpc :=
  { r with
    magic := 0
    msgoutPkts := if (0 : Int) ≤ r.msgoutLen then 0 else r.msgoutPkts
    msginPkts := if (0 : Int) ≤ r.msginLen then 0 else r.msginPkts }

/-- Record as the reap walk leaves a record whose tx collection filled the
batch: magic zeroed and takeN tx sk_buffs spliced out before the goto at
line 647. -/
def stopRec (r : Rpc) (takeN : Nat) : Rpc :=
  { r with magic := 0, msgoutPkts := r.msgoutPkts - takeN }

/-- One pass of the dead-list walk of homa_rpc_reap
(src/homa_utils.c:624-676), carrying the num_skbs/num_rpcs/rx_frees
accumulators. Blocked records are skipped whole. For any other record the
magic field is zeroed, tx sk_buffs are collected until the batch fills (the
`goto release` at line 647 then ends the walk leaving the record on the
dead list with its remaining sk_buffs), rx sk_buffs are freed inline, and a
fully drained record is collected in `reaped` and unlinked from the dead
list; collecting batchSize records also ends the walk (line 675). A
dangling token would be dereferenced by the C walk and never occurs on the
dead list; the model keeps it and moves on. -/
def reapWalk (recs : Nat → Option Rpc) (dead : List Nat) (batchSize : Nat)
    (numSkbs numRpcs rxFrees : Nat) : WalkRes :=
  match dead with
  | [] => ⟨numSkbs, numRpcs, rxFrees, [], [], recs⟩
  | t :: rest =>
    match recs t with
    | none =>
      let w := reapWalk recs rest batchSize numSkbs numRpcs rxFrees
      { w with kept := t :: w.kept }
    | some r =>
      if reapBlocked r then
        let w := reapWalk recs rest batchSize numSkbs numRpcs rxFrees
        { w with kept := t :: w.kept }
      else if (0 : Int) ≤ r.msgoutLen ∧ batchSize ≤ numSkbs + r.msgoutPkts ∧
          0 < r.msgoutPkts then
        ⟨batchSize, numRpcs, rxFrees, [], t :: rest,
         fun u => if u = t then some (stopRec r (batchSize - numSkbs))
                  else recs u⟩
      else
        let recs1 := fun u => if u = t then some (drainRec r) else recs u
        let numSkbs1 := numSkbs +
          (if (0 : Int) ≤ r.msgoutLen then r.msgoutPkts else 0)
        let rxFrees1 := rxFrees +
          (if (0 : Int) ≤ r.msginLen then r.msginPkts else 0)
        if batchSize ≤ numRpcs + 1 then
          ⟨numSkbs1, numRpcs + 1, rxFrees1, [t], rest, recs1⟩
        else
          let w := reapWalk recs1 rest batchSize numSkbs1 (numRpcs + 1)
            rxFrees1
          { w with reaped := t :: w.reaped }

/-- Batching loop of homa_rpc_reap plus the final return
(src/homa_utils.c:606-727), structurally recursive on a fuel that the
caller sets to `count`: every iteration consumes at least one unit of
count, so the fuel never runs out before count does. `result` carries the
value of the C variable `result` left by the previous iteration; the C code
leaves it uninitialized when count starts nonpositive, and the model
returns 0 there. Each batch locks the socket, bails out with 0 if
protect_count is nonzero, walks the dead list, updates dead_skbs (the C
code subtracts the cumulative rx_frees each batch; kept as written), frees
the collected tx sk_buffs outside the lock, and frees each collected record
after a final lock/unlock of its bucket (rpc->state = 0; kfree, so the
token leaves the heap). -/
def reapLoop : Nat → Sock → Nat → Nat → Nat → Nat × Sock
  | 0, s, _, _, result => (result, s)
  | Nat.succ fuel, s, count, rxFrees, result =>
    if count = 0 then (result, s)
    else if 0 < s.protectCount then (0, s)
    else
      let batchSize := min count BATCH_MAX
      let w := reapWalk s.recs s.deadRpcs batchSize 0 0 rxFrees
      let res : Bool := decide (w.kept ≠ []) && decide (w.numSkbs + w.numRpcs ≠ 0)
      let s1 : Sock := { s with
        deadSkbs := s.deadSkbs - ((w.numSkbs : Int) + (w.rxFrees : Int))
        deadRpcs := w.kept
        recs := fun u => if w.reaped.contains u then none else w.recs u }
      if res then reapLoop fuel s1 (count - batchSize) w.rxFrees 1
      else (0, s1)

/-- Transcription of homa_rpc_reap (src/homa_utils.c:585): release resources
of dead RPCs, up to roughly `count` buffers, in batches of at most
BATCH_MAX, bailing out (returning 0) while protect_count is nonzero. The
final homa_pool_check_waiting call touches only the buffer pool, outside
the structures modelled here. -/
def homa_rpc_reap (s : Sock) (count : Nat) : Nat × Sock :=
  reapLoop count s count 0 0

lemma reapWalk_recs_blocked (recs : Nat → Option Rpc) (dead : List Nat)
    (b ns nr rx : Nat) (t : Nat) (r : Rpc) (h1 : recs t = some r)
    (h2 : reapBlocked r = true) :
    (reapWalk recs dead b ns nr rx).recs t = some r := by
  induction dead generalizing recs ns nr rx with
  | nil => simpa [reapWalk]
  | cons u rest ih =>
    cases hu : recs u with
    | none =>
      simp only [reapWalk, hu]
      exact ih recs ns nr rx h1
    | some ru =>
      by_cases hb : reapBlocked ru = true
      · simp only [reapWalk, hu, hb, if_true]
        exact ih recs ns nr rx h1
      · have hut : t ≠ u := by
          intro he; subst he; rw [h1] at hu; cases hu; exact hb h2
        simp only [reapWalk, hu, hb, if_false]
        by_cases hg : (0 : Int) ≤ ru.msgoutLen ∧ b ≤ ns + ru.msgoutPkts ∧
            0 < ru.msgoutPkts
        · rw [if_pos hg]
          simpa [hut] using h1
        · rw [if_neg hg]
          by_cases hn : b ≤ nr + 1
          · rw [if_pos hn]
            simpa [hut] using h1
          · rw [if_neg hn]
            exact ih _ _ _ _ (by simpa [hut] using h1)

lemma reapWalk_kept_blocked (recs : Nat → Option Rpc) (dead : List Nat)
    (b ns nr rx : Nat) (t : Nat) (r : Rpc) (h1 : recs t = some r)
    (h2 : reapBlocked r = true) (h3 : t ∈ dead) :
    t ∈ (reapWalk recs dead b ns nr rx).kept := by
  induction dead generalizing recs ns nr rx with
  | nil => cases h3
  | cons u rest ih =>
    cases hu : recs u with
    | none =>
      simp only [reapWalk, hu]
      rcases List.mem_cons.mp h3 with he | hm
      · subst he; rw [h1] at hu; cases hu
      · exact List.mem_cons_of_mem u (ih recs ns nr rx h1 hm)
    | some ru =>
      by_cases hb : reapBlocked ru = true
      · simp only [reapWalk, hu, hb, if_true]
        rcases List.mem_cons.mp h3 with he | hm
        · subst he; exact List.mem_cons_self _ _
        · exact List.mem_cons_of_mem u (ih recs ns nr rx h1 hm)
      · have hut : t ≠ u := by
          intro he; subst he; rw [h1] at hu; cases hu; exact hb h2
        have hm : t ∈ rest := by
          rcases List.mem_cons.mp h3 with he | hm
          · exact absurd he hut
          · exact hm
        simp only [reapWalk, hu, hb, if_false]
        by_cases hg : (0 : Int) ≤ ru.msgoutLen ∧ b ≤ ns + ru.msgoutPkts ∧
            0 < ru.msgoutPkts
        · rw [if_pos hg]
          exact h3
        · rw [if_neg hg]
          by_cases hn : b ≤ nr + 1
          · rw [if_pos hn]
            exact hm
          · rw [if_neg hn]
            exact ih _ _ _ _ (by simpa [hut] using h1) hm

lemma reapWalk_reaped_unblocked (recs : Nat → Option Rpc) (dead : List Nat)
    (b ns nr rx : Nat) (t : Nat)
    (h : t ∈ (reapWalk recs dead b ns nr rx).reaped) :
    ∃ r, recs t = some r ∧ reapBlocked r = false := by
  induction dead generalizing recs ns nr rx with
  | nil => simp [reapWalk] at h
  | cons u rest ih =>
    cases hu : recs u with
    | none =>
      simp only [reapWalk, hu] at h
      exact ih recs ns nr rx h
    | some ru =>
      by_cases hb : reapBlocked ru = true
      · simp only [reapWalk, hu, hb, if_true] at h
        exact ih recs ns nr rx h
      · simp only [reapWalk, hu, hb, if_false] at h
        by_cases hg : (0 : Int) ≤ ru.msgoutLen ∧ b ≤ ns + ru.msgoutPkts ∧
            0 < ru.msgoutPkts
        · rw [if_pos hg] at h
          simp at h
        · rw [if_neg hg] at h
          by_cases hn : b ≤ nr + 1
          · rw [if_pos hn] at h
            simp at h
            subst h
            exact ⟨ru, hu, Bool.eq_false_iff.mpr hb⟩
          · rw [if_neg hn] at h
            rcases List.mem_cons.mp h with he | hm
            · subst he
              exact ⟨ru, hu, Bool.eq_false_iff.mpr hb⟩
            · by_cases hut : t = u
              · subst hut
                exact ⟨ru, hu, Bool.eq_false_iff.mpr hb⟩
              · rcases ih _ _ _ _ hm with ⟨r1, hr1, hbr1⟩
                refine ⟨r1, ?_, hbr1⟩
                simpa [hut] using hr1

lemma reapLoop_blocked (fuel : Nat) (s : Sock) (count rx res : Nat)
    (t : Nat) (r : Rpc) (h1 : s.recs t = some r)
    (h2 : reapBlocked r = true) (h3 : t ∈ s.deadRpcs) :
    (reapLoop fuel s count rx res).2.recs t = some r ∧
      t ∈ (reapLoop fuel s count rx res).2.deadRpcs := by
  induction fuel generalizing s count rx res with
  | zero => exact ⟨h1, h3⟩
  | succ fuel ih =>
    simp only [reapLoop]
    by_cases hc : count = 0
    · simp only [hc, if_true]; exact ⟨h1, h3⟩
    · simp only [hc, if_false]
      by_cases hp : 0 < s.protectCount
      · simp only [hp, if_true]; exact ⟨h1, h3⟩
      · simp only [hp, if_false]
        have hrecs : (reapWalk s.recs s.deadRpcs (min count BATCH_MAX) 0 0 rx).recs t
            = some r := reapWalk_recs_blocked _ _ _ _ _ _ t r h1 h2
        have hnr : ¬ t ∈ (reapWalk s.recs s.deadRpcs (min count BATCH_MAX) 0 0 rx).reaped := by
          intro hmem
          rcases reapWalk_reaped_unblocked _ _ _ _ _ _ t hmem with ⟨r1, hr1, hbr1⟩
          rw [h1] at hr1; cases hr1; rw [h2] at hbr1; cases hbr1
        have hkept : t ∈ (reapWalk s.recs s.deadRpcs (min count BATCH_MAX) 0 0 rx).kept :=
          reapWalk_kept_blocked _ _ _ _ _ _ t r h1 h2 h3
        split
        · exact ih _ _ _ _ (by simp [hnr, hrecs]) hkept
        · exact ⟨by simp [hnr, hrecs], hkept⟩

/-- C4: homa_rpc_reap never releases a blocked record. A dead-list record
whose CANT_REAP flag is set, or whose grants_in_progress or active_xmits is
nonzero, is skipped by every call: its record — including every one of its
packet buffers — is left exactly as it was, it stays linked on the dead
list, and it is not freed. -/
theorem reap_skips_blocked_records (s : Sock) (count t : Nat) (r : Rpc)
    (h1 : s.recs t = some r) (h2 : reapBlocked r = true)
    (h3 : t ∈ s.deadRpcs) :
    (homa_rpc_reap s count).2.recs t = some r ∧
      t ∈ (homa_rpc_reap s count).2.deadRpcs :=
  reapLoop_blocked count s count 0 0 t r h1 h2 h3

/-- Dead record blocked by CANT_REAP, for concrete witnesses. -/
def blockedRpc : Rpc :=
  { id := 3, state := .dead, dport := 40, peer := 7, magic := HOMA_RPC_MAGIC
    pktsReady := false, cantReap := true, grantsInProgress := 0
    activeXmits := 0, msgoutLen := 100, msgoutPkts := 2, msginLen := -1
    msginPkts := 0, msginNumBpages := 0 }

/-- Socket whose dead list holds exactly one blocked record. -/
def blockedSock : Sock :=
  { shutdown := false, protectCount := 0, deadSkbs := 2, maxDeadBuffs := 2
    clientBuckets := fun _ => [], serverBuckets := fun _ => []
    activeRpcs := [], deadRpcs := [0]
    recs := fun u => if u = 0 then some blockedRpc else none
    nextToken := 1, nextOutgoingId := 4 }

/-- Witness for C4 at a concrete socket and budget. -/
theorem reap_skips_blocked_records_witness :
    blockedSock.recs 0 = some blockedRpc ∧ reapBlocked blockedRpc = true ∧
      0 ∈ blockedSock.deadRpcs ∧
      ((homa_rpc_reap blockedSock 10).2.recs 0 = some blockedRpc ∧
        0 ∈ (homa_rpc_reap blockedSock 10).2.deadRpcs) :=
  ⟨rfl, rfl, by decide,
   reap_skips_blocked_records blockedSock 10 0 blockedRpc rfl rfl (by decide)⟩

lemma reapWalk_all_blocked (recs : Nat → Option Rpc) (dead : List Nat)
    (b ns nr rx : Nat)
    (h : ∀ t ∈ dead, ∃ r, recs t = some r ∧ reapBlocked r = true) :
    reapWalk recs dead b ns nr rx = ⟨ns, nr, rx, [], dead, recs⟩ := by
  induction dead generalizing ns nr rx with
  | nil => rfl
  | cons u rest ih =>
    rcases h u (List.mem_cons_self u rest) with ⟨ru, hu, hb⟩
    have hrest : ∀ t ∈ rest, ∃ r, recs t = some r ∧ reapBlocked r = true :=
      fun t ht => h t (List.mem_cons_of_mem u ht)
    simp only [reapWalk, hu, hb, if_true, ih ns nr rx hrest]

lemma reap_all_blocked (s : Sock) (count : Nat)
    (h : ∀ t ∈ s.deadRpcs, ∃ r, s.recs t = some r ∧ reapBlocked r = true) :
    (homa_rpc_reap s count).1 = 0 := by
  unfold homa_rpc_reap
  cases count with
  | zero => rfl
  | succ n =>
    by_cases hp : 0 < s.protectCount
    · simp [reapLoop, hp]
    · simp [reapLoop, hp,
        reapWalk_all_blocked s.recs s.deadRpcs (min (n + 1) BATCH_MAX) 0 0 0 h]

lemma reapLoop_pos_dead (fuel : Nat) :
    ∀ (s : Sock) (count rx res : Nat), count ≤ fuel →
      (res ≠ 0 → s.deadRpcs ≠ []) →
      (reapLoop fuel s count rx res).1 ≠ 0 →
      (reapLoop fuel s count rx res).2.deadRpcs ≠ [] := by
  induction fuel with
  | zero =>
    intro s count rx res hc hres h
    exact hres h
  | succ fuel ih =>
    intro s count rx res hc hres h
    by_cases hc0 : count = 0
    · simp only [reapLoop, hc0, if_true] at h ⊢
      exact hres h
    · simp only [reapLoop, hc0, if_false] at h ⊢
      by_cases hp : 0 < s.protectCount
      · simp only [hp, if_true] at h
        exact absurd rfl h
      · simp only [hp, if_false] at h ⊢
        by_cases hres2 : (decide ((reapWalk s.recs s.deadRpcs (min count BATCH_MAX) 0 0 rx).kept ≠ []) &&
            decide ((reapWalk s.recs s.deadRpcs (min count BATCH_MAX) 0 0 rx).numSkbs +
              (reapWalk s.recs s.deadRpcs (min count BATCH_MAX) 0 0 rx).numRpcs ≠ 0)) = true
        · rw [if_pos hres2] at h ⊢
          refine ih _ _ _ _ ?_ ?_ h
          · have hbm : BATCH_MAX = 20 := rfl
            omega
          · intro _
            rw [Bool.and_eq_true] at hres2
            exact of_decide_eq_true hres2.1
        · rw [if_neg hres2] at h
          exact absurd rfl h

/-- C5 (amended): the return value of homa_rpc_reap. It returns 0 when
protect_count is nonzero at entry (bailing with the socket untouched), when
the dead list is empty at entry, and when every record on the dead list is
blocked at entry; and a return greater than zero implies the dead list is
still nonempty after the call. A nonzero return does not guarantee that
reapable work remains: when the budget runs out in the batch that reaped
the last unblocked record, the call returns nonzero although only blocked
records remain (see the counterexample). -/
theorem reap_return_value (s : Sock) (count : Nat) :
    (0 < s.protectCount → 1 ≤ count → homa_rpc_reap s count = (0, s)) ∧
    (s.deadRpcs = [] → (homa_rpc_reap s count).1 = 0) ∧
    ((∀ t ∈ s.deadRpcs, ∃ r, s.recs t = some r ∧ reapBlocked r = true) →
      (homa_rpc_reap s count).1 = 0) ∧
    ((homa_rpc_reap s count).1 ≠ 0 →
      (homa_rpc_reap s count).2.deadRpcs ≠ []) := by
  refine ⟨?_, ?_, ?_, ?_⟩
  · intro hp hc
    cases count with
    | zero => cases hc
    | succ n => simp [homa_rpc_reap, reapLoop, hp]
  · intro hd
    exact reap_all_blocked s count (by simp [hd])
  · exact reap_all_blocked s count
  · exact reapLoop_pos_dead count s count 0 0 le_rfl (by simp)

/-- Reapable dead record with no packets left, for the C5 counterexample. -/
def plainDeadRpc : Rpc :=
  { id := 2, state := .dead, dport := 40, peer := 7, magic := HOMA_RPC_MAGIC
    pktsReady := false, cantReap := false, grantsInProgress := 0
    activeXmits := 0, msgoutLen := -1, msgoutPkts := 0, msginLen := -1
    msginPkts := 0, msginNumBpages := 0 }

/-- Socket whose dead list holds a reapable record followed by a blocked
one. -/
def mixedDeadSock : Sock :=
  { shutdown := false, protectCount := 0, deadSkbs := 0, maxDeadBuffs := 0
    clientBuckets := fun _ => [], serverBuckets := fun _ => []
    activeRpcs := [], deadRpcs := [0, 1]
    recs := fun u => if u = 0 then some plainDeadRpc
                     else if u = 1 then some blockedRpc else none
    nextToken := 2, nextOutgoingId := 4 }

/-- C5 counterexample: with dead list [reapable, blocked] and budget 20,
homa_rpc_reap reaps the reapable record, exhausts the budget and returns 1,
although after the call only a blocked record remains on the dead list —
where the claim requires a return of 0 (it says the value is greater than
zero exactly when more reaping work remains after the call). -/
theorem reap_return_value_counterexample :
    (homa_rpc_reap mixedDeadSock 20).1 = 1 ∧
      (homa_rpc_reap mixedDeadSock 20).2.deadRpcs = [1] ∧
      (homa_rpc_reap mixedDeadSock 20).2.recs 1 = some blockedRpc ∧
      reapBlocked blockedRpc = true := by
  refine ⟨?_, ?_, ?_, rfl⟩ <;> decide

/-- Copy of the blocked socket with a nonzero protect count. -/
def protSock : Sock :=
  { blockedSock with protectCount := 1 }

/-- Witness for C5 at concrete sockets and budgets, covering the protect
bailout, the empty dead list and the all-blocked dead list. -/
theorem reap_return_value_witness :
    0 < protSock.protectCount ∧ 1 ≤ 5 ∧
      homa_rpc_reap protSock 5 = (0, protSock) ∧
      initSock.deadRpcs = [] ∧ (homa_rpc_reap initSock 5).1 = 0 ∧
      (homa_rpc_reap blockedSock 5).1 = 0 :=
  ⟨by decide, by decide,
   (reap_return_value protSock 5).1 (by decide) (by decide),
   rfl, (reap_return_value initSock 5).2.1 rfl,
   (reap_return_value blockedSock 5).2.2.1 (fun t ht => by
     have h0 : t = 0 := by simpa [blockedSock] using ht
     subst h0
     exact ⟨blockedRpc, rfl, rfl⟩)⟩

/-- C10: homa_rpc_free invoked with a NULL rpc pointer returns immediately
(src/homa_utils.c:517) and modifies no socket, bucket-list, dead-list or
accounting state. -/
theorem rpc_free_null_noop (s : Sock) : homa_rpc_free s none = s := rfl

/-- C2: when the shutdown flag is seen set at the re-check under the socket
lock, homa_rpc_new_client and homa_rpc_new_server return the -ESHUTDOWN
error, the partially initialized record is destroyed (never enters the
heap), and nothing is published: the bucket tables, the active list, the
dead list and the record heap are unchanged (for new_client only the
already-consumed id counter differs). For new_server the re-check is
reached only when the bucket scan found no existing RPC and the external
allocation, peer and msgin-init steps succeeded. -/
theorem shutdown_recheck_publishes_nothing (s : Sock) (a : NewClientArgs)
    (a2 : NewServerArgs) (hs : s.shutdown = true)
    (hok : a.allocOk = true) (hok2 : a.peerOk = true)
    (hfind : homa_find_server_rpc s a2.sourceAddr a2.sport a2.id = none)
    (hok3 : a2.allocOk = true) (hok4 : a2.peerOk = true)
    (hok5 : a2.msginOk = true) :
    (homa_rpc_new_client s a).1 = .error .eshutdown ∧
    (homa_rpc_new_client s a).2.clientBuckets = s.clientBuckets ∧
    (homa_rpc_new_client s a).2.serverBuckets = s.serverBuckets ∧
    (homa_rpc_new_client s a).2.activeRpcs = s.activeRpcs ∧
    (homa_rpc_new_client s a).2.deadRpcs = s.deadRpcs ∧
    (homa_rpc_new_client s a).2.recs = s.recs ∧
    (homa_rpc_new_client s a).2.nextToken = s.nextToken ∧
    homa_rpc_new_server s a2 = (.error .eshutdown, s) := by
  refine ⟨?_, ?_, ?_, ?_, ?_, ?_, ?_, ?_⟩ <;>
    simp [homa_rpc_new_client, homa_rpc_new_server, hs, hok, hok2, hfind,
      hok3, hok4, hok5]

/-- Socket with the shutdown flag set, for concrete witnesses. -/
def shutSock : Sock :=
  { initSock with shutdown := true }

/-- Witness for C2 at a concrete shut-down socket. -/
theorem shutdown_recheck_publishes_nothing_witness :
    shutSock.shutdown = true ∧
      (homa_rpc_new_client shutSock ⟨5, 77, true, true⟩).1 =
        .error .eshutdown ∧
      (homa_rpc_new_client shutSock ⟨5, 77, true, true⟩).2.activeRpcs =
        shutSock.activeRpcs ∧
      homa_rpc_new_server shutSock ⟨5, 77, 9, 1000, 0, 1, true, true, true⟩ =
        (.error .eshutdown, shutSock) :=
  ⟨rfl,
   (shutdown_recheck_publishes_nothing shutSock ⟨5, 77, true, true⟩
     ⟨5, 77, 9, 1000, 0, 1, true, true, true⟩ rfl rfl rfl rfl rfl rfl rfl).1,
   (shutdown_recheck_publishes_nothing shutSock ⟨5, 77, true, true⟩
     ⟨5, 77, 9, 1000, 0, 1, true, true, true⟩ rfl rfl rfl rfl rfl rfl rfl).2.2.2.1,
   (shutdown_recheck_publishes_nothing shutSock ⟨5, 77, true, true⟩
     ⟨5, 77, 9, 1000, 0, 1, true, true, true⟩ rfl rfl rfl rfl rfl rfl rfl).2.2.2.2.2.2.2⟩

/-- External inputs of one atomic operation on a socket. `setShutdown`
models homa_sock_shutdown raising the flag (the rest of that function lives
outside homa_utils.c); `setBlockers` models external code (grant and
copy-to-user paths) toggling the reap-blocking state of a record. -/
inductive Op where
  | newClient (a : NewClientArgs)
  | newServer (a : NewServerArgs)
  | freeRpc (rpc : Option Nat)
  | reap (count : Nat)
  | setShutdown
  | setBlockers (t : Nat) (c : Bool) (g x : Nat)

/-- State change of one operation. -/
def applyOp (s : Sock) : Op → Sock
  | .newClient a => (homa_rpc_new_client s a).2
  | .newServer a => (homa_rpc_new_server s a).2
  | .freeRpc rpc => homa_rpc_free s rpc
  | .reap count => (homa_rpc_reap s count).2
  | .setShutdown => { s with shutdown := true }
  | .setBlockers t c g x =>
    match s.recs t with
    | none => s
    | some r =>
      let r1 : Rpc :=
        { r with cantReap := c, grantsInProgress := g, activeXmits := x }
      { s with recs := fun u => if u = t then some r1 else s.recs u }

/-- Sequential application of a list of operations. -/
def applyOps (s : Sock) : List Op → Sock
  | [] => s
  | op :: ops => applyOps (applyOp s op) ops

/-- States reachable from a fresh socket by the modelled operations; the
quiescent moments of the spec. -/
inductive Reachable : Sock → Prop where
  | init : Reachable initSock
  | step (s : Sock) (op : Op) : Reachable s → Reachable (applyOp s op)

lemma new_client_spec (s : Sock) (a : NewClientArgs) :
    homa_rpc_new_client s a = (.error .enomem, s) ∨
    homa_rpc_new_client s a =
      (.error .epeer, { s with nextOutgoingId := s.nextOutgoingId + 2 }) ∨
    homa_rpc_new_client s a =
      (.error .eshutdown, { s with nextOutgoingId := s.nextOutgoingId + 2 }) ∨
    (s.shutdown = false ∧
      homa_rpc_new_client s a = (.ok s.nextToken, newClientPublish s a)) := by
  unfold homa_rpc_new_client
  by_cases h1 : a.allocOk = false
  · rw [if_pos h1]
    exact Or.inl rfl
  · rw [if_neg h1]
    by_cases h2 : a.peerOk = false
    · rw [if_pos h2]
      exact Or.inr (Or.inl rfl)
    · rw [if_neg h2]
      by_cases h3 : s.shutdown = true
      · rw [if_pos h3]
        exact Or.inr (Or.inr (Or.inl rfl))
      · rw [if_neg h3]
        exact Or.inr (Or.inr (Or.inr ⟨Bool.eq_false_iff.mpr h3, rfl⟩))

lemma new_server_spec (s : Sock) (a : NewServerArgs) :
    (homa_rpc_new_server s a).2 = s ∨
    (s.shutdown = false ∧
      homa_rpc_new_server s a = (.ok (s.nextToken, true), newServerPublish s a)) := by
  unfold homa_rpc_new_server
  split
  · exact Or.inl rfl
  · by_cases h1 : a.allocOk = false
    · rw [if_pos h1]
      exact Or.inl rfl
    · rw [if_neg h1]
      by_cases h2 : a.peerOk = false
      · rw [if_pos h2]
        exact Or.inl rfl
      · rw [if_neg h2]
        by_cases h3 : a.msginOk = false
        · rw [if_pos h3]
          exact Or.inl rfl
        · rw [if_neg h3]
          by_cases h4 : s.shutdown = true
          · rw [if_pos h4]
            exact Or.inl rfl
          · rw [if_neg h4]
            exact Or.inr ⟨Bool.eq_false_iff.mpr h4, rfl⟩

lemma free_spec (s : Sock) (rpc : Option Nat) :
    homa_rpc_free s rpc = s ∨
    ∃ t r, rpc = some t ∧ s.recs t = some r ∧ r.state ≠ RpcState.dead ∧
      homa_rpc_free s rpc = freeUnlink s t r := by
  cases rpc with
  | none => exact Or.inl rfl
  | some t =>
    cases hrec : s.recs t with
    | none => exact Or.inl (by simp [homa_rpc_free, hrec])
    | some r =>
      by_cases hd : r.state = RpcState.dead
      · exact Or.inl (by simp [homa_rpc_free, hrec, hd])
      · exact Or.inr ⟨t, r, rfl, hrec, hd, by simp [homa_rpc_free, hrec, hd]⟩

lemma reapLoop_frame (fuel : Nat) : ∀ (s : Sock) (count rx res : Nat),
    (reapLoop fuel s count rx res).2 =
      { s with
        deadRpcs := (reapLoop fuel s count rx res).2.deadRpcs
        recs := (reapLoop fuel s count rx res).2.recs
        deadSkbs := (reapLoop fuel s count rx res).2.deadSkbs } := by
  induction fuel with
  | zero =>
    intro s count rx res
    rfl
  | succ fuel ih =>
    intro s count rx res
    simp only [reapLoop]
    by_cases hc : count = 0
    · rw [if_pos hc]
    · rw [if_neg hc]
      by_cases hp : 0 < s.protectCount
      · rw [if_pos hp]
      · rw [if_neg hp]
        split
        · exact ih _ _ _ _
        · rfl

lemma applyOp_nextOutgoingId (s : Sock) (op : Op) :
    (applyOp s op).nextOutgoingId = s.nextOutgoingId ∨
    (applyOp s op).nextOutgoingId = s.nextOutgoingId + 2 := by
  cases op with
  | newClient a =>
    rcases new_client_spec s a with h | h | h | ⟨_, h⟩ <;>
      simp [applyOp, h, newClientPublish]
  | newServer a =>
    rcases new_server_spec s a with h | ⟨_, h⟩
    · exact Or.inl (by simp [applyOp, h])
    · exact Or.inl (by simp [applyOp, h, newServerPublish])
  | freeRpc rpc =>
    rcases free_spec s rpc with h | ⟨t, r, _, _, _, h⟩
    · exact Or.inl (by simp [applyOp, h])
    · exact Or.inl (by simp [applyOp, h, freeUnlink])
  | reap count =>
    refine Or.inl ?_
    show (reapLoop count s count 0 0).2.nextOutgoingId = s.nextOutgoingId
    rw [reapLoop_frame count s count 0 0]
  | setShutdown => exact Or.inl rfl
  | setBlockers t c g x =>
    cases hrec : s.recs t with
    | none => exact Or.inl (by simp [applyOp, hrec])
    | some r => exact Or.inl (by simp [applyOp, hrec])

lemma applyOps_nextOutgoingId_mono (s : Sock) (ops : List Op) :
    s.nextOutgoingId ≤ (applyOps s ops).nextOutgoingId := by
  induction ops generalizing s with
  | nil => exact le_rfl
  | cons op ops ih =>
    refine le_trans ?_ (ih (applyOp s op))
    rcases applyOp_nextOutgoingId s op with h | h <;> omega

lemma reachable_nextOutgoingId_even (s : Sock) (h : Reachable s) :
    s.nextOutgoingId % 2 = 0 := by
  induction h with
  | init => rfl
  | step s op _ ih =>
    rcases applyOp_nextOutgoingId s op with h2 | h2 <;> omega

lemma new_client_ok_spec (s : Sock) (a : NewClientArgs) (t : Nat)
    (h : (homa_rpc_new_client s a).1 = .ok t) :
    t = s.nextToken ∧ s.shutdown = false ∧
      homa_rpc_new_client s a = (.ok s.nextToken, newClientPublish s a) := by
  rcases new_client_spec s a with hh | hh | hh | ⟨hsd, hh⟩
  · rw [hh] at h; simp at h
  · rw [hh] at h; simp at h
  · rw [hh] at h; simp at h
  · rw [hh] at h
    simp only [Except.ok.injEq] at h
    exact ⟨h.symm, hsd, hh⟩

lemma new_client_publish_rec (s : Sock) (a : NewClientArgs) :
    (newClientPublish s a).recs s.nextToken =
      some { id := s.nextOutgoingId % U64, state := .outgoing
             dport := a.destPort, peer := a.destAddr, magic := HOMA_RPC_MAGIC
             pktsReady := false, cantReap := false, grantsInProgress := 0
             activeXmits := 0, msgoutLen := -1, msgoutPkts := 0
             msginLen := -1, msginPkts := 0, msginNumBpages := 0 } ∧
    (newClientPublish s a).nextOutgoingId = s.nextOutgoingId + 2 :=
  ⟨by simp [newClientPublish], rfl⟩

/-- C3: homa_rpc_new_client takes its id by fetch-and-adding 2 to the
socket-global counter next_outgoing_id, which homa_init starts at 2. The
counter is even in every reachable state, so every created client RPC has
an even id (low bit 0); and two successful calls separated by any
interleaving of other operations return records with distinct ids, as long
as the 64-bit counter did not wrap in between (that takes 2^63
allocations). -/
theorem client_ids_even_and_distinct (s : Sock) (hr : Reachable s)
    (a : NewClientArgs) (t : Nat)
    (h : (homa_rpc_new_client s a).1 = .ok t) :
    (∃ r, (homa_rpc_new_client s a).2.recs t = some r ∧
      r.id = s.nextOutgoingId % U64 ∧ r.id % 2 = 0) ∧
    (∀ ops (a2 : NewClientArgs) (t2 : Nat) (r r2 : Rpc),
      (homa_rpc_new_client (applyOps (homa_rpc_new_client s a).2 ops) a2).1
          = .ok t2 →
      (applyOps (homa_rpc_new_client s a).2 ops).nextOutgoingId
          - s.nextOutgoingId < U64 →
      (homa_rpc_new_client s a).2.recs t = some r →
      (homa_rpc_new_client (applyOps (homa_rpc_new_client s a).2 ops) a2).2.recs
          t2 = some r2 →
      r.id ≠ r2.id) := by
  obtain ⟨ht, hsd, heq⟩ := new_client_ok_spec s a t h
  subst ht
  have hrec := (new_client_publish_rec s a).1
  constructor
  · refine ⟨_, by rw [heq]; exact hrec, rfl, ?_⟩
    have he := reachable_nextOutgoingId_even s hr
    have h2 : (2 : Nat) ∣ U64 := ⟨2 ^ 63, by norm_num [U64]⟩
    rw [Nat.mod_mod_of_dvd _ h2]
    exact he
  · intro ops a2 t2 r r2 h2 hlt hre hre2
    obtain ⟨ht2, hsd2, heq2⟩ := new_client_ok_spec _ a2 t2 h2
    subst ht2
    rw [heq] at hre
    rw [(new_client_publish_rec s a).1] at hre
    injection hre with hre
    subst hre
    rw [heq2] at hre2
    rw [(new_client_publish_rec _ a2).1] at hre2
    injection hre2 with hre2
    subst hre2
    intro hcontra
    have hcc : s.nextOutgoingId % U64 =
        (applyOps (homa_rpc_new_client s a).2 ops).nextOutgoingId % U64 :=
      hcontra
    have hmono := applyOps_nextOutgoingId_mono (homa_rpc_new_client s a).2 ops
    have hcounter : (homa_rpc_new_client s a).2.nextOutgoingId
        = s.nextOutgoingId + 2 := by rw [heq]; rfl
    rw [hcounter] at hmono
    have hmod : Nat.ModEq U64 s.nextOutgoingId
        (applyOps (homa_rpc_new_client s a).2 ops).nextOutgoingId := hcc
    have hdvd := hmod.dvd
    have hpos : (0 : Int) <
        ((applyOps (homa_rpc_new_client s a).2 ops).nextOutgoingId : Int)
          - (s.nextOutgoingId : Int) := by
      omega
    have hge := Int.le_of_dvd hpos hdvd
    omega

/-- Witness for C3: the first homa_rpc_new_client call on a fresh socket
succeeds with token 0 and an even id taken from the counter. -/
theorem client_ids_even_and_distinct_witness :
    (homa_rpc_new_client initSock ⟨5, 77, true, true⟩).1 = .ok 0 ∧
      (∃ r, (homa_rpc_new_client initSock ⟨5, 77, true, true⟩).2.recs 0 =
          some r ∧
        r.id = initSock.nextOutgoingId % U64 ∧ r.id % 2 = 0) :=
  ⟨rfl, (client_ids_even_and_distinct initSock Reachable.init
    ⟨5, 77, true, true⟩ 0 rfl).1⟩


lemma reapWalk_kept_sublist (recs : Nat → Option Rpc) (dead : List Nat)
    (b ns nr rx : Nat) :
    (reapWalk recs dead b ns nr rx).kept.Sublist dead := by
  induction dead generalizing recs ns nr rx with
  | nil => exact List.Sublist.refl _
  | cons u rest ih =>
    cases hu : recs u with
    | none =>
      simp only [reapWalk, hu]
      exact (ih recs ns nr rx).cons₂ u
    | some ru =>
      by_cases hb : reapBlocked ru = true
      · simp only [reapWalk, hu, hb, if_true]
        exact (ih recs ns nr rx).cons₂ u
      · simp only [reapWalk, hu, hb, if_false]
        by_cases hg : (0 : Int) ≤ ru.msgoutLen ∧ b ≤ ns + ru.msgoutPkts ∧
            0 < ru.msgoutPkts
        · rw [if_pos hg]
          exact List.Sublist.refl _
        · rw [if_neg hg]
          by_cases hn : b ≤ nr + 1
          · rw [if_pos hn]
            exact (List.Sublist.refl rest).cons u
          · rw [if_neg hn]
            exact (ih _ _ _ _).cons u

lemma reapWalk_reaped_subset (recs : Nat → Option Rpc) (dead : List Nat)
    (b ns nr rx : Nat) (t : Nat)
    (h : t ∈ (reapWalk recs dead b ns nr rx).reaped) : t ∈ dead := by
  induction dead generalizing recs ns nr rx with
  | nil => simp [reapWalk] at h
  | cons u rest ih =>
    cases hu : recs u with
    | none =>
      simp only [reapWalk, hu] at h
      exact List.mem_cons_of_mem u (ih recs ns nr rx h)
    | some ru =>
      by_cases hb : reapBlocked ru = true
      · simp only [reapWalk, hu, hb, if_true] at h
        exact List.mem_cons_of_mem u (ih recs ns nr rx h)
      · simp only [reapWalk, hu, hb, if_false] at h
        by_cases hg : (0 : Int) ≤ ru.msgoutLen ∧ b ≤ ns + ru.msgoutPkts ∧
            0 < ru.msgoutPkts
        · rw [if_pos hg] at h
          simp at h
        · rw [if_neg hg] at h
          by_cases hn : b ≤ nr + 1
          · rw [if_pos hn] at h
            simp at h
            subst h
            exact List.mem_cons_self _ _
          · rw [if_neg hn] at h
            rcases List.mem_cons.mp h with he | hm
            · subst he
              exact List.mem_cons_self _ _
            · exact List.mem_cons_of_mem u (ih _ _ _ _ hm)

lemma reapWalk_mem_or (recs : Nat → Option Rpc) (dead : List Nat)
    (b ns nr rx : Nat) (t : Nat) (h : t ∈ dead) :
    t ∈ (reapWalk recs dead b ns nr rx).kept ∨
      t ∈ (reapWalk recs dead b ns nr rx).reaped := by
  induction dead generalizing recs ns nr rx with
  | nil => cases h
  | cons u rest ih =>
    cases hu : recs u with
    | none =>
      simp only [reapWalk, hu]
      rcases List.mem_cons.mp h with he | hm
      · exact Or.inl (by subst he; exact List.mem_cons_self _ _)
      · rcases ih recs ns nr rx hm with hk | hrp
        · exact Or.inl (List.mem_cons_of_mem u hk)
        · exact Or.inr hrp
    | some ru =>
      by_cases hb : reapBlocked ru = true
      · simp only [reapWalk, hu, hb, if_true]
        rcases List.mem_cons.mp h with he | hm
        · exact Or.inl (by subst he; exact List.mem_cons_self _ _)
        · rcases ih recs ns nr rx hm with hk | hrp
          · exact Or.inl (List.mem_cons_of_mem u hk)
          · exact Or.inr hrp
      · simp only [reapWalk, hu, hb, if_false]
        by_cases hg : (0 : Int) ≤ ru.msgoutLen ∧ b ≤ ns + ru.msgoutPkts ∧
            0 < ru.msgoutPkts
        · rw [if_pos hg]
          exact Or.inl h
        · rw [if_neg hg]
          by_cases hn : b ≤ nr + 1
          · rw [if_pos hn]
            rcases List.mem_cons.mp h with he | hm
            · exact Or.inr (by subst he; exact List.mem_cons_self _ _)
            · exact Or.inl hm
          · rw [if_neg hn]
            rcases List.mem_cons.mp h with he | hm
            · exact Or.inr (by subst he; exact List.mem_cons_self _ _)
            · rcases ih _ _ _ _ hm with hk | hrp
              · exact Or.inl hk
              · exact Or.inr (List.mem_cons_of_mem u hrp)

lemma reapWalk_reaped_not_kept (recs : Nat → Option Rpc) (dead : List Nat)
    (b ns nr rx : Nat) (t : Nat) :
    dead.Nodup → t ∈ (reapWalk recs dead b ns nr rx).reaped →
    t ∉ (reapWalk recs dead b ns nr rx).kept := by
  induction dead generalizing recs ns nr rx with
  | nil =>
    intro _ h
    simp [reapWalk] at h
  | cons u rest ih =>
    intro hnd h
    have hu_rest : u ∉ rest := (List.nodup_cons.mp hnd).1
    have hnd2 : rest.Nodup := (List.nodup_cons.mp hnd).2
    cases hu : recs u with
    | none =>
      simp only [reapWalk, hu] at h ⊢
      intro hk
      rcases List.mem_cons.mp hk with he | hk2
      · subst he
        exact hu_rest (reapWalk_reaped_subset recs rest b ns nr rx _ h)
      · exact ih recs ns nr rx hnd2 h hk2
    | some ru =>
      by_cases hb : reapBlocked ru = true
      · simp only [reapWalk, hu, hb, if_true] at h ⊢
        intro hk
        rcases List.mem_cons.mp hk with he | hk2
        · subst he
          exact hu_rest (reapWalk_reaped_subset recs rest b ns nr rx _ h)
        · exact ih recs ns nr rx hnd2 h hk2
      · simp only [reapWalk, hu, hb, if_false] at h ⊢
        by_cases hg : (0 : Int) ≤ ru.msgoutLen ∧ b ≤ ns + ru.msgoutPkts ∧
            0 < ru.msgoutPkts
        · rw [if_pos hg] at h
          simp at h
        · rw [if_neg hg] at h ⊢
          by_cases hn : b ≤ nr + 1
          · rw [if_pos hn] at h ⊢
            simp at h
            subst h
            exact hu_rest
          · rw [if_neg hn] at h ⊢
            rcases List.mem_cons.mp h with he | hm
            · subst he
              intro hk
              exact hu_rest
                (List.Sublist.subset (reapWalk_kept_sublist _ rest b _ _ _) hk)
            · exact ih _ _ _ _ hnd2 hm

lemma reapWalk_recs_rel (recs : Nat → Option Rpc) (dead : List Nat)
    (b ns nr rx : Nat) (t : Nat) :
    (reapWalk recs dead b ns nr rx).recs t = recs t ∨
    ∃ r r', recs t = some r ∧ (reapWalk recs dead b ns nr rx).recs t = some r' ∧
      r'.state = r.state ∧ r'.id = r.id := by
  induction dead generalizing recs ns nr rx with
  | nil => exact Or.inl rfl
  | cons u rest ih =>
    cases hu : recs u with
    | none =>
      simp only [reapWalk, hu]
      exact ih recs ns nr rx
    | some ru =>
      by_cases hb : reapBlocked ru = true
      · simp only [reapWalk, hu, hb, if_true]
        exact ih recs ns nr rx
      · simp only [reapWalk, hu, hb, if_false]
        by_cases hg : (0 : Int) ≤ ru.msgoutLen ∧ b ≤ ns + ru.msgoutPkts ∧
            0 < ru.msgoutPkts
        · rw [if_pos hg]
          by_cases ht : t = u
          · subst ht
            exact Or.inr ⟨ru, stopRec ru (b - ns), hu, by simp, rfl, rfl⟩
          · exact Or.inl (by simp [ht])
        · rw [if_neg hg]
          by_cases hn : b ≤ nr + 1
          · rw [if_pos hn]
            by_cases ht : t = u
            · subst ht
              exact Or.inr ⟨ru, drainRec ru, hu, by simp, rfl, rfl⟩
            · exact Or.inl (by simp [ht])
          · rw [if_neg hn]
            rcases ih (fun v => if v = u then some (drainRec ru) else recs v)
                (ns + if (0 : Int) ≤ ru.msgoutLen then ru.msgoutPkts else 0)
                (nr + 1)
                (rx + if (0 : Int) ≤ ru.msginLen then ru.msginPkts else 0)
              with h1 | ⟨r, r', h1, h2, h3, h4⟩
            · by_cases ht : t = u
              · subst ht
                exact Or.inr ⟨ru, drainRec ru, hu,
                  h1.trans (if_pos rfl), rfl, rfl⟩
              · exact Or.inl (h1.trans (if_neg ht))
            · by_cases ht : t = u
              · subst ht
                have h1b : drainRec ru = r := by simpa using h1
                subst h1b
                exact Or.inr ⟨ru, r', hu, h2, h3, h4⟩
              · have h1b : recs t = some r := by simpa [ht] using h1
                exact Or.inr ⟨r, r', h1b, h2, h3, h4⟩

/-- Inductive invariant of the lifecycle lists (claim C1 plus the
bookkeeping that makes it inductive): a live record is on the bucket list
determined by its id and on the active list; a dead record is on neither
but on the dead list; every list member has a live heap entry sitting in
the right bucket; tokens are below the allocation counter; and the dead
list has no duplicates. -/
structure Inv (s : Sock) : Prop where
  rec_token : ∀ t r, s.recs t = some r → t < s.nextToken
  rec_bucket : ∀ t r, s.recs t = some r →
    ((r.state ≠ RpcState.dead) ↔
      (t ∈ s.clientBuckets (r.id % NUM_BUCKETS) ∨
       t ∈ s.serverBuckets (r.id % NUM_BUCKETS)))
  rec_active : ∀ t r, s.recs t = some r →
    ((r.state ≠ RpcState.dead) ↔ t ∈ s.activeRpcs)
  rec_dead : ∀ t r, s.recs t = some r →
    ((r.state = RpcState.dead) ↔ t ∈ s.deadRpcs)
  client_mem : ∀ i t, t ∈ s.clientBuckets i →
    ∃ r, s.recs t = some r ∧ i = r.id % NUM_BUCKETS
  server_mem : ∀ i t, t ∈ s.serverBuckets i →
    ∃ r, s.recs t = some r ∧ i = r.id % NUM_BUCKETS
  active_mem : ∀ t, t ∈ s.activeRpcs → ∃ r, s.recs t = some r
  dead_mem : ∀ t, t ∈ s.deadRpcs → ∃ r, s.recs t = some r
  dead_nodup : s.deadRpcs.Nodup

lemma inv_initSock : Inv initSock := by
  constructor <;> simp [initSock]

lemma inv_counter (s : Sock) (v : Nat) (inv : Inv s) :
    Inv { s with nextOutgoingId := v } :=
  ⟨inv.rec_token, inv.rec_bucket, inv.rec_active, inv.rec_dead,
   inv.client_mem, inv.server_mem, inv.active_mem, inv.dead_mem,
   inv.dead_nodup⟩

lemma inv_shutdown (s : Sock) (inv : Inv s) :
    Inv { s with shutdown := true } :=
  ⟨inv.rec_token, inv.rec_bucket, inv.rec_active, inv.rec_dead,
   inv.client_mem, inv.server_mem, inv.active_mem, inv.dead_mem,
   inv.dead_nodup⟩

lemma inv_fresh_not_mem (s : Sock) (inv : Inv s) :
    (∀ i, s.nextToken ∉ s.clientBuckets i) ∧
    (∀ i, s.nextToken ∉ s.serverBuckets i) ∧
    s.nextToken ∉ s.activeRpcs ∧ s.nextToken ∉ s.deadRpcs := by
  refine ⟨fun i hm => ?_, fun i hm => ?_, fun hm => ?_, fun hm => ?_⟩
  · rcases inv.client_mem i _ hm with ⟨r, hr, _⟩
    exact absurd (inv.rec_token _ r hr) (lt_irrefl _)
  · rcases inv.server_mem i _ hm with ⟨r, hr, _⟩
    exact absurd (inv.rec_token _ r hr) (lt_irrefl _)
  · rcases inv.active_mem _ hm with ⟨r, hr⟩
    exact absurd (inv.rec_token _ r hr) (lt_irrefl _)
  · rcases inv.dead_mem _ hm with ⟨r, hr⟩
    exact absurd (inv.rec_token _ r hr) (lt_irrefl _)

lemma inv_newClientPublish (s : Sock) (a : NewClientArgs) (inv : Inv s) :
    Inv (newClientPublish s a) := by
  obtain ⟨hfc, hfs, hfa, hfd⟩ := inv_fresh_not_mem s inv
  constructor
  · intro t r hr
    simp only [newClientPublish] at hr
    show t < s.nextToken + 1
    by_cases ht : t = s.nextToken
    · omega
    · rw [if_neg ht] at hr
      exact lt_trans (inv.rec_token t r hr) (Nat.lt_succ_self _)
  · intro t r hr
    simp only [newClientPublish] at hr ⊢
    by_cases ht : t = s.nextToken
    · subst ht
      rw [if_pos rfl] at hr
      injection hr with hr
      subst hr
      refine ⟨fun _ => Or.inl ?_, fun _ => by simp⟩
      simp
    · rw [if_neg ht] at hr
      rw [inv.rec_bucket t r hr]
      by_cases hj : r.id % NUM_BUCKETS = s.nextOutgoingId % U64 % NUM_BUCKETS
      · rw [if_pos hj]
        simp [ht]
      · rw [if_neg hj]
  · intro t r hr
    simp only [newClientPublish] at hr ⊢
    by_cases ht : t = s.nextToken
    · subst ht
      rw [if_pos rfl] at hr
      injection hr with hr
      subst hr
      exact ⟨fun _ => by simp, fun _ => by simp⟩
    · rw [if_neg ht] at hr
      rw [inv.rec_active t r hr]
      simp [ht]
  · intro t r hr
    simp only [newClientPublish] at hr ⊢
    by_cases ht : t = s.nextToken
    · subst ht
      rw [if_pos rfl] at hr
      injection hr with hr
      subst hr
      exact ⟨fun h => by simp at h, fun h => absurd h hfd⟩
    · rw [if_neg ht] at hr
      exact inv.rec_dead t r hr
  · intro i t hm
    simp only [newClientPublish] at hm ⊢
    by_cases hi : i = s.nextOutgoingId % U64 % NUM_BUCKETS
    · rw [if_pos hi] at hm
      rcases List.mem_cons.mp hm with he | hm2
      · subst he
        exact ⟨_, by rw [if_pos rfl], hi⟩
      · rcases inv.client_mem i t hm2 with ⟨r, hr, hid⟩
        have hne : t ≠ s.nextToken := fun he => by subst he; exact hfc i hm2
        exact ⟨r, by rw [if_neg hne]; exact hr, hid⟩
    · rw [if_neg hi] at hm
      rcases inv.client_mem i t hm with ⟨r, hr, hid⟩
      have hne : t ≠ s.nextToken := fun he => by subst he; exact hfc i hm
      exact ⟨r, by rw [if_neg hne]; exact hr, hid⟩
  · intro i t hm
    rcases inv.server_mem i t hm with ⟨r, hr, hid⟩
    have hne : t ≠ s.nextToken := fun he => by subst he; exact hfs i hm
    refine ⟨r, ?_, hid⟩
    simp only [newClientPublish]
    rw [if_neg hne]
    exact hr
  · intro t hm
    simp only [newClientPublish] at hm ⊢
    rcases List.mem_append.mp hm with hm2 | hm2
    · rcases inv.active_mem t hm2 with ⟨r, hr⟩
      have hne : t ≠ s.nextToken := fun he => by subst he; exact hfa hm2
      exact ⟨r, by rw [if_neg hne]; exact hr⟩
    · have he : t = s.nextToken := by simpa using hm2
      subst he
      exact ⟨_, by rw [if_pos rfl]⟩
  · intro t hm
    rcases inv.dead_mem t hm with ⟨r, hr⟩
    have hne : t ≠ s.nextToken := fun he => by subst he; exact hfd hm
    refine ⟨r, ?_⟩
    simp only [newClientPublish]
    rw [if_neg hne]
    exact hr
  · exact inv.dead_nodup

lemma inv_newServerPublish (s : Sock) (a : NewServerArgs) (inv : Inv s) :
    Inv (newServerPublish s a) := by
  obtain ⟨hfc, hfs, hfa, hfd⟩ := inv_fresh_not_mem s inv
  constructor
  · intro t r hr
    simp only [newServerPublish] at hr
    show t < s.nextToken + 1
    by_cases ht : t = s.nextToken
    · omega
    · rw [if_neg ht] at hr
      exact lt_trans (inv.rec_token t r hr) (Nat.lt_succ_self _)
  · intro t r hr
    simp only [newServerPublish] at hr ⊢
    by_cases ht : t = s.nextToken
    · subst ht
      rw [if_pos rfl] at hr
      injection hr with hr
      subst hr
      refine ⟨fun _ => Or.inr ?_, fun _ => by simp⟩
      simp
    · rw [if_neg ht] at hr
      rw [inv.rec_bucket t r hr]
      by_cases hj : r.id % NUM_BUCKETS = a.id % NUM_BUCKETS
      · rw [if_pos hj]
        simp [ht]
      · rw [if_neg hj]
  · intro t r hr
    simp only [newServerPublish] at hr ⊢
    by_cases ht : t = s.nextToken
    · subst ht
      rw [if_pos rfl] at hr
      injection hr with hr
      subst hr
      exact ⟨fun _ => by simp, fun _ => by simp⟩
    · rw [if_neg ht] at hr
      rw [inv.rec_active t r hr]
      simp [ht]
  · intro t r hr
    simp only [newServerPublish] at hr ⊢
    by_cases ht : t = s.nextToken
    · subst ht
      rw [if_pos rfl] at hr
      injection hr with hr
      subst hr
      exact ⟨fun h => by simp at h, fun h => absurd h hfd⟩
    · rw [if_neg ht] at hr
      exact inv.rec_dead t r hr
  · intro i t hm
    rcases inv.client_mem i t hm with ⟨r, hr, hid⟩
    have hne : t ≠ s.nextToken := fun he => by subst he; exact hfc i hm
    refine ⟨r, ?_, hid⟩
    simp only [newServerPublish]
    rw [if_neg hne]
    exact hr
  · intro i t hm
    simp only [newServerPublish] at hm ⊢
    by_cases hi : i = a.id % NUM_BUCKETS
    · rw [if_pos hi] at hm
      rcases List.mem_cons.mp hm with he | hm2
      · subst he
        exact ⟨_, by rw [if_pos rfl], hi⟩
      · rcases inv.server_mem i t hm2 with ⟨r, hr, hid⟩
        have hne : t ≠ s.nextToken := fun he => by subst he; exact hfs i hm2
        exact ⟨r, by rw [if_neg hne]; exact hr, hid⟩
    · rw [if_neg hi] at hm
      rcases inv.server_mem i t hm with ⟨r, hr, hid⟩
      have hne : t ≠ s.nextToken := fun he => by subst he; exact hfs i hm
      exact ⟨r, by rw [if_neg hne]; exact hr, hid⟩
  · intro t hm
    simp only [newServerPublish] at hm ⊢
    rcases List.mem_append.mp hm with hm2 | hm2
    · rcases inv.active_mem t hm2 with ⟨r, hr⟩
      have hne : t ≠ s.nextToken := fun he => by subst he; exact hfa hm2
      exact ⟨r, by rw [if_neg hne]; exact hr⟩
    · have he : t = s.nextToken := by simpa using hm2
      subst he
      exact ⟨_, by rw [if_pos rfl]⟩
  · intro t hm
    rcases inv.dead_mem t hm with ⟨r, hr⟩
    have hne : t ≠ s.nextToken := fun he => by subst he; exact hfd hm
    refine ⟨r, ?_⟩
    simp only [newServerPublish]
    rw [if_neg hne]
    exact hr
  · exact inv.dead_nodup

lemma inv_freeUnlink (s : Sock) (t0 : Nat) (r0 : Rpc)
    (hrec : s.recs t0 = some r0) (hnd : r0.state ≠ RpcState.dead)
    (inv : Inv s) : Inv (freeUnlink s t0 r0) := by
  have hnotdead : t0 ∉ s.deadRpcs :=
    fun hm => hnd ((inv.rec_dead t0 r0 hrec).mpr hm)
  constructor
  · intro t r hr
    simp only [freeUnlink] at hr
    show t < s.nextToken
    by_cases ht : t = t0
    · subst ht
      exact inv.rec_token t r0 hrec
    · rw [if_neg ht] at hr
      exact inv.rec_token t r hr
  · intro t r hr
    simp only [freeUnlink] at hr ⊢
    by_cases ht : t = t0
    · subst ht
      rw [if_pos rfl] at hr
      injection hr with hr
      subst hr
      refine ⟨fun h => absurd rfl h, fun h => ?_⟩
      rcases h with h | h <;> simp [List.mem_filter] at h
    · rw [if_neg ht] at hr
      have hb := inv.rec_bucket t r hr
      simpa [List.mem_filter, bne_iff_ne, ht] using hb
  · intro t r hr
    simp only [freeUnlink] at hr ⊢
    by_cases ht : t = t0
    · subst ht
      rw [if_pos rfl] at hr
      injection hr with hr
      subst hr
      refine ⟨fun h => absurd rfl h, fun h => ?_⟩
      simp [List.mem_filter] at h
    · rw [if_neg ht] at hr
      have hb := inv.rec_active t r hr
      simpa [List.mem_filter, bne_iff_ne, ht] using hb
  · intro t r hr
    simp only [freeUnlink] at hr ⊢
    by_cases ht : t = t0
    · subst ht
      rw [if_pos rfl] at hr
      injection hr with hr
      subst hr
      exact ⟨fun _ => by simp, fun _ => rfl⟩
    · rw [if_neg ht] at hr
      have hb := inv.rec_dead t r hr
      simpa [ht] using hb
  · intro i t hm
    simp only [freeUnlink] at hm ⊢
    simp only [List.mem_filter, bne_iff_ne] at hm
    obtain ⟨hm2, hne⟩ := hm
    rcases inv.client_mem i t hm2 with ⟨r, hr, hid⟩
    have hne2 : t ≠ t0 := by simpa using hne
    exact ⟨r, by rw [if_neg hne2]; exact hr, hid⟩
  · intro i t hm
    simp only [freeUnlink] at hm ⊢
    simp only [List.mem_filter, bne_iff_ne] at hm
    obtain ⟨hm2, hne⟩ := hm
    rcases inv.server_mem i t hm2 with ⟨r, hr, hid⟩
    have hne2 : t ≠ t0 := by simpa using hne
    exact ⟨r, by rw [if_neg hne2]; exact hr, hid⟩
  · intro t hm
    simp only [freeUnlink] at hm ⊢
    simp only [List.mem_filter, bne_iff_ne] at hm
    obtain ⟨hm2, hne⟩ := hm
    rcases inv.active_mem t hm2 with ⟨r, hr⟩
    have hne2 : t ≠ t0 := by simpa using hne
    exact ⟨r, by rw [if_neg hne2]; exact hr⟩
  · intro t hm
    simp only [freeUnlink] at hm ⊢
    rcases List.mem_append.mp hm with hm2 | hm2
    · rcases inv.dead_mem t hm2 with ⟨r, hr⟩
      have hne : t ≠ t0 := fun he => by subst he; exact hnotdead hm2
      exact ⟨r, by rw [if_neg hne]; exact hr⟩
    · have he : t = t0 := by simpa using hm2
      subst he
      exact ⟨_, by rw [if_pos rfl]⟩
  · show (s.deadRpcs ++ [t0]).Nodup
    refine inv.dead_nodup.append (List.nodup_singleton t0) ?_
    intro x hx hx2
    have : x = t0 := by simpa using hx2
    subst this
    exact hnotdead hx

lemma inv_update_same_state_id (s : Sock) (t0 : Nat) (r r1 : Rpc)
    (hrec : s.recs t0 = some r) (hst : r1.state = r.state)
    (hid : r1.id = r.id) (inv : Inv s) :
    Inv { s with recs := fun u => if u = t0 then some r1 else s.recs u } := by
  constructor
  · intro t r2 hr
    have hr2 : (if t = t0 then some r1 else s.recs t) = some r2 := hr
    show t < s.nextToken
    by_cases ht : t = t0
    · subst ht
      exact inv.rec_token t r hrec
    · rw [if_neg ht] at hr2
      exact inv.rec_token t r2 hr2
  · intro t r2 hr
    by_cases ht : t = t0
    · subst ht
      have hr2 : r1 = r2 := by simpa using hr
      subst hr2
      rw [show r1.state = r.state from hst, show r1.id = r.id from hid]
      exact inv.rec_bucket t r hrec
    · have hr2 : s.recs t = some r2 := by simpa [ht] using hr
      exact inv.rec_bucket t r2 hr2
  · intro t r2 hr
    by_cases ht : t = t0
    · subst ht
      have hr2 : r1 = r2 := by simpa using hr
      subst hr2
      rw [show r1.state = r.state from hst]
      exact inv.rec_active t r hrec
    · have hr2 : s.recs t = some r2 := by simpa [ht] using hr
      exact inv.rec_active t r2 hr2
  · intro t r2 hr
    by_cases ht : t = t0
    · subst ht
      have hr2 : r1 = r2 := by simpa using hr
      subst hr2
      rw [show r1.state = r.state from hst]
      exact inv.rec_dead t r hrec
    · have hr2 : s.recs t = some r2 := by simpa [ht] using hr
      exact inv.rec_dead t r2 hr2
  · intro i t hm
    rcases inv.client_mem i t hm with ⟨r2, hr2, hid2⟩
    by_cases ht : t = t0
    · subst ht
      rw [hrec] at hr2
      injection hr2 with hr2
      subst hr2
      exact ⟨r1, by simp, by rw [hid2, ← hid]⟩
    · exact ⟨r2, by simpa [ht] using hr2, hid2⟩
  · intro i t hm
    rcases inv.server_mem i t hm with ⟨r2, hr2, hid2⟩
    by_cases ht : t = t0
    · subst ht
      rw [hrec] at hr2
      injection hr2 with hr2
      subst hr2
      exact ⟨r1, by simp, by rw [hid2, ← hid]⟩
    · exact ⟨r2, by simpa [ht] using hr2, hid2⟩
  · intro t hm
    rcases inv.active_mem t hm with ⟨r2, hr2⟩
    by_cases ht : t = t0
    · subst ht
      exact ⟨r1, by simp⟩
    · exact ⟨r2, by simpa [ht] using hr2⟩
  · intro t hm
    rcases inv.dead_mem t hm with ⟨r2, hr2⟩
    by_cases ht : t = t0
    · subst ht
      exact ⟨r1, by simp⟩
    · exact ⟨r2, by simpa [ht] using hr2⟩
  · exact inv.dead_nodup

lemma inv_finalize_abstract (s : Sock) (dsk : Int) (w : WalkRes)
    (hkd : ∀ t, t ∈ w.kept → t ∈ s.deadRpcs)
    (hrd : ∀ t, t ∈ w.reaped → t ∈ s.deadRpcs)
    (hmem : ∀ t, t ∈ s.deadRpcs → t ∈ w.kept ∨ t ∈ w.reaped)
    (hdisj : ∀ t, t ∈ w.reaped → t ∉ w.kept)
    (hnodup : w.kept.Nodup)
    (hrel : ∀ t, w.recs t = s.recs t ∨
      ∃ r r', s.recs t = some r ∧ w.recs t = some r' ∧
        r'.state = r.state ∧ r'.id = r.id)
    (inv : Inv s) :
    Inv { s with
      deadSkbs := dsk
      deadRpcs := w.kept
      recs := fun u =>
        (if w.reaped.contains u = true then none else w.recs u) } := by
  have hsome : ∀ t r,
      (if w.reaped.contains t = true then none else w.recs t) = some r →
      t ∉ w.reaped ∧ ∃ r0, s.recs t = some r0 ∧ r.state = r0.state ∧
        r.id = r0.id := by
    intro t r hr
    by_cases hc : w.reaped.contains t = true
    · rw [if_pos hc] at hr
      cases hr
    · rw [if_neg hc] at hr
      have hnm : t ∉ w.reaped := fun hm => hc (by simpa using hm)
      refine ⟨hnm, ?_⟩
      rcases hrel t with he | ⟨r0, r', h1, h2, h3, h4⟩
      · exact ⟨r, he.symm.trans hr, rfl, rfl⟩
      · rw [h2] at hr
        injection hr with hr
        subst hr
        exact ⟨r0, h1, h3, h4⟩
  constructor
  · intro t r hr
    obtain ⟨-, r0, h0, -, -⟩ := hsome t r hr
    show t < s.nextToken
    exact inv.rec_token t r0 h0
  · intro t r hr
    obtain ⟨-, r0, h0, hst, hid⟩ := hsome t r hr
    show (r.state ≠ RpcState.dead) ↔
      (t ∈ s.clientBuckets (r.id % NUM_BUCKETS) ∨
       t ∈ s.serverBuckets (r.id % NUM_BUCKETS))
    rw [hst, hid]
    exact inv.rec_bucket t r0 h0
  · intro t r hr
    obtain ⟨-, r0, h0, hst, -⟩ := hsome t r hr
    show (r.state ≠ RpcState.dead) ↔ t ∈ s.activeRpcs
    rw [hst]
    exact inv.rec_active t r0 h0
  · intro t r hr
    obtain ⟨hnm, r0, h0, hst, -⟩ := hsome t r hr
    show (r.state = RpcState.dead) ↔ t ∈ w.kept
    rw [hst]
    constructor
    · intro hdead
      rcases hmem t ((inv.rec_dead t r0 h0).mp hdead) with hk | hrp
      · exact hk
      · exact absurd hrp hnm
    · intro hk
      exact (inv.rec_dead t r0 h0).mpr (hkd t hk)
  · intro i t hm
    have hm2 : t ∈ s.clientBuckets i := hm
    rcases inv.client_mem i t hm2 with ⟨r0, h0, hi⟩
    have hnm : t ∉ w.reaped := by
      intro hrp
      have hdead : r0.state = RpcState.dead :=
        (inv.rec_dead t r0 h0).mpr (hrd t hrp)
      exact (inv.rec_bucket t r0 h0).mpr (Or.inl (hi ▸ hm2)) hdead
    have hcf : ¬ w.reaped.contains t = true :=
      fun hcc => hnm (by simpa using hcc)
    rcases hrel t with he | ⟨rX, r', h1, h2, h3, h4⟩
    · refine ⟨r0, ?_, hi⟩
      show (if w.reaped.contains t = true then none else w.recs t) = some r0
      rw [if_neg hcf, he]
      exact h0
    · have hx : rX = r0 := by
        rw [h0] at h1
        exact (Option.some.inj h1).symm
      subst hx
      refine ⟨r', ?_, ?_⟩
      · show (if w.reaped.contains t = true then none else w.recs t) = some r'
        rw [if_neg hcf]
        exact h2
      · rw [h4]
        exact hi
  · intro i t hm
    have hm2 : t ∈ s.serverBuckets i := hm
    rcases inv.server_mem i t hm2 with ⟨r0, h0, hi⟩
    have hnm : t ∉ w.reaped := by
      intro hrp
      have hdead : r0.state = RpcState.dead :=
        (inv.rec_dead t r0 h0).mpr (hrd t hrp)
      exact (inv.rec_bucket t r0 h0).mpr (Or.inr (hi ▸ hm2)) hdead
    have hcf : ¬ w.reaped.contains t = true :=
      fun hcc => hnm (by simpa using hcc)
    rcases hrel t with he | ⟨rX, r', h1, h2, h3, h4⟩
    · refine ⟨r0, ?_, hi⟩
      show (if w.reaped.contains t = true then none else w.recs t) = some r0
      rw [if_neg hcf, he]
      exact h0
    · have hx : rX = r0 := by
        rw [h0] at h1
        exact (Option.some.inj h1).symm
      subst hx
      refine ⟨r', ?_, ?_⟩
      · show (if w.reaped.contains t = true then none else w.recs t) = some r'
        rw [if_neg hcf]
        exact h2
      · rw [h4]
        exact hi
  · intro t hm
    have hm2 : t ∈ s.activeRpcs := hm
    rcases inv.active_mem t hm2 with ⟨r0, h0⟩
    have hnm : t ∉ w.reaped := by
      intro hrp
      have hdead : r0.state = RpcState.dead :=
        (inv.rec_dead t r0 h0).mpr (hrd t hrp)
      exact (inv.rec_active t r0 h0).mpr hm2 hdead
    have hcf : ¬ w.reaped.contains t = true :=
      fun hcc => hnm (by simpa using hcc)
    rcases hrel t with he | ⟨rX, r', h1, h2, h3, h4⟩
    · refine ⟨r0, ?_⟩
      show (if w.reaped.contains t = true then none else w.recs t) = some r0
      rw [if_neg hcf, he]
      exact h0
    · refine ⟨r', ?_⟩
      show (if w.reaped.contains t = true then none else w.recs t) = some r'
      rw [if_neg hcf]
      exact h2
  · intro t hm
    have hk : t ∈ w.kept := hm
    rcases inv.dead_mem t (hkd t hk) with ⟨r0, h0⟩
    have hnm : t ∉ w.reaped := fun hrp => hdisj t hrp hk
    have hcf : ¬ w.reaped.contains t = true :=
      fun hcc => hnm (by simpa using hcc)
    rcases hrel t with he | ⟨rX, r', h1, h2, h3, h4⟩
    · refine ⟨r0, ?_⟩
      show (if w.reaped.contains t = true then none else w.recs t) = some r0
      rw [if_neg hcf, he]
      exact h0
    · refine ⟨r', ?_⟩
      show (if w.reaped.contains t = true then none else w.recs t) = some r'
      rw [if_neg hcf]
      exact h2
  · exact hnodup

lemma inv_reapLoop (fuel : Nat) : ∀ (s : Sock) (count rx res : Nat),
    Inv s → Inv (reapLoop fuel s count rx res).2 := by
  induction fuel with
  | zero =>
    intro s count rx res inv
    exact inv
  | succ fuel ih =>
    intro s count rx res inv
    simp only [reapLoop]
    by_cases hc : count = 0
    · rw [if_pos hc]
      exact inv
    · rw [if_neg hc]
      by_cases hp : 0 < s.protectCount
      · rw [if_pos hp]
        exact inv
      · rw [if_neg hp]
        have hinv1 := inv_finalize_abstract s
          (s.deadSkbs -
            (((reapWalk s.recs s.deadRpcs (min count BATCH_MAX) 0 0 rx).numSkbs : Int)
              + ((reapWalk s.recs s.deadRpcs (min count BATCH_MAX) 0 0 rx).rxFrees : Int)))
          (reapWalk s.recs s.deadRpcs (min count BATCH_MAX) 0 0 rx)
          (fun t h => (reapWalk_kept_sublist _ _ _ _ _ _).subset h)
          (fun t h => reapWalk_reaped_subset _ _ _ _ _ _ t h)
          (fun t h => reapWalk_mem_or _ _ _ _ _ _ t h)
          (fun t h => reapWalk_reaped_not_kept _ _ _ _ _ _ t inv.dead_nodup h)
          (List.Nodup.sublist (reapWalk_kept_sublist _ _ _ _ _ _) inv.dead_nodup)
          (fun t => reapWalk_recs_rel _ _ _ _ _ _ t)
          inv
        split
        · exact ih _ _ _ _ hinv1
        · exact hinv1

lemma inv_applyOp (s : Sock) (op : Op) (inv : Inv s) : Inv (applyOp s op) := by
  cases op with
  | newClient a =>
    show Inv (homa_rpc_new_client s a).2
    rcases new_client_spec s a with h | h | h | ⟨-, h⟩
    · rw [h]
      exact inv
    · rw [h]
      exact inv_counter s _ inv
    · rw [h]
      exact inv_counter s _ inv
    · rw [h]
      exact inv_newClientPublish s a inv
  | newServer a =>
    show Inv (homa_rpc_new_server s a).2
    rcases new_server_spec s a with h | ⟨-, h⟩
    · rw [h]
      exact inv
    · rw [h]
      exact inv_newServerPublish s a inv
  | freeRpc rpc =>
    show Inv (homa_rpc_free s rpc)
    rcases free_spec s rpc with h | ⟨t, r, hrpc, hrec, hnd, h⟩
    · rw [h]
      exact inv
    · rw [h]
      exact inv_freeUnlink s t r hrec hnd inv
  | reap count => exact inv_reapLoop count s count 0 0 inv
  | setShutdown => exact inv_shutdown s inv
  | setBlockers t c g x =>
    show Inv (applyOp s (Op.setBlockers t c g x))
    simp only [applyOp]
    split
    · exact inv
    · rename_i r hrec
      exact inv_update_same_state_id s t r
        { r with cantReap := c, grantsInProgress := g, activeXmits := x }
        hrec rfl rfl inv

lemma inv_reachable (s : Sock) (h : Reachable s) : Inv s := by
  induction h with
  | init => exact inv_initSock
  | step s op _ ih => exact inv_applyOp s op ih

/-- Permanent unreachability of a token: any record it still names is
DEAD, it is on no bucket list and not on the active list, and its token
number is already consumed, so later creations never reuse it. -/
def Gone (s : Sock) (t : Nat) : Prop :=
  (∀ r, s.recs t = some r → r.state = RpcState.dead) ∧
  (∀ i, t ∉ s.clientBuckets i) ∧ (∀ i, t ∉ s.serverBuckets i) ∧
  t ∉ s.activeRpcs ∧ t < s.nextToken

lemma gone_newClientPublish (s : Sock) (a : NewClientArgs) (t : Nat)
    (hg : Gone s t) : Gone (newClientPublish s a) t := by
  obtain ⟨h1, h2, h3, h4, h5⟩ := hg
  have hne : t ≠ s.nextToken := Nat.ne_of_lt h5
  refine ⟨?_, ?_, ?_, ?_, ?_⟩
  · intro r hr
    simp only [newClientPublish] at hr
    rw [if_neg hne] at hr
    exact h1 r hr
  · intro i
    simp only [newClientPublish]
    by_cases hi : i = s.nextOutgoingId % U64 % NUM_BUCKETS
    · rw [if_pos hi]
      intro hm
      rcases List.mem_cons.mp hm with he | hm2
      · exact hne he
      · exact h2 i hm2
    · rw [if_neg hi]
      exact h2 i
  · intro i
    exact h3 i
  · simp only [newClientPublish]
    intro hm
    rcases List.mem_append.mp hm with hm2 | hm2
    · exact h4 hm2
    · exact hne (by simpa using hm2)
  · show t < s.nextToken + 1
    omega

lemma gone_newServerPublish (s : Sock) (a : NewServerArgs) (t : Nat)
    (hg : Gone s t) : Gone (newServerPublish s a) t := by
  obtain ⟨h1, h2, h3, h4, h5⟩ := hg
  have hne : t ≠ s.nextToken := Nat.ne_of_lt h5
  refine ⟨?_, ?_, ?_, ?_, ?_⟩
  · intro r hr
    simp only [newServerPublish] at hr
    rw [if_neg hne] at hr
    exact h1 r hr
  · intro i
    exact h2 i
  · intro i
    simp only [newServerPublish]
    by_cases hi : i = a.id % NUM_BUCKETS
    · rw [if_pos hi]
      intro hm
      rcases List.mem_cons.mp hm with he | hm2
      · exact hne he
      · exact h3 i hm2
    · rw [if_neg hi]
      exact h3 i
  · simp only [newServerPublish]
    intro hm
    rcases List.mem_append.mp hm with hm2 | hm2
    · exact h4 hm2
    · exact hne (by simpa using hm2)
  · show t < s.nextToken + 1
    omega

lemma gone_freeUnlink (s : Sock) (t0 : Nat) (r0 : Rpc) (t : Nat)
    (hrec : s.recs t0 = some r0) (hnd0 : r0.state ≠ RpcState.dead)
    (hg : Gone s t) : Gone (freeUnlink s t0 r0) t := by
  obtain ⟨h1, h2, h3, h4, h5⟩ := hg
  have hne : ¬ t = t0 := by
    intro he
    subst he
    exact hnd0 (h1 r0 hrec)
  refine ⟨?_, ?_, ?_, ?_, h5⟩
  · intro r hr
    simp only [freeUnlink] at hr
    rw [if_neg hne] at hr
    exact h1 r hr
  · intro i
    simp only [freeUnlink]
    intro hm
    exact h2 i (List.mem_filter.mp hm).1
  · intro i
    simp only [freeUnlink]
    intro hm
    exact h3 i (List.mem_filter.mp hm).1
  · simp only [freeUnlink]
    intro hm
    exact h4 (List.mem_filter.mp hm).1

lemma gone_finalize (s : Sock) (dsk : Int) (w : WalkRes) (t : Nat)
    (hrel : ∀ u, w.recs u = s.recs u ∨
      ∃ r r', s.recs u = some r ∧ w.recs u = some r' ∧
        r'.state = r.state ∧ r'.id = r.id)
    (hg : Gone s t) :
    Gone { s with
      deadSkbs := dsk
      deadRpcs := w.kept
      recs := fun u =>
        (if w.reaped.contains u = true then none else w.recs u) } t := by
  obtain ⟨h1, h2, h3, h4, h5⟩ := hg
  refine ⟨?_, h2, h3, h4, h5⟩
  intro r hr
  have hr2 : (if w.reaped.contains t = true then none else w.recs t)
      = some r := hr
  by_cases hc : w.reaped.contains t = true
  · rw [if_pos hc] at hr2
    cases hr2
  · rw [if_neg hc] at hr2
    rcases hrel t with he | ⟨rr, rr', e1, e2, e3, e4⟩
    · rw [he] at hr2
      exact h1 r hr2
    · rw [e2] at hr2
      injection hr2 with hr2
      subst hr2
      rw [e3]
      exact h1 rr e1

lemma gone_reapLoop (fuel : Nat) : ∀ (s : Sock) (count rx res t : Nat),
    Gone s t → Gone (reapLoop fuel s count rx res).2 t := by
  induction fuel with
  | zero =>
    intro s count rx res t hg
    exact hg
  | succ fuel ih =>
    intro s count rx res t hg
    simp only [reapLoop]
    by_cases hc : count = 0
    · rw [if_pos hc]
      exact hg
    · rw [if_neg hc]
      by_cases hp : 0 < s.protectCount
      · rw [if_pos hp]
        exact hg
      · rw [if_neg hp]
        have hg1 := gone_finalize s
          (s.deadSkbs -
            (((reapWalk s.recs s.deadRpcs (min count BATCH_MAX) 0 0 rx).numSkbs : Int)
              + ((reapWalk s.recs s.deadRpcs (min count BATCH_MAX) 0 0 rx).rxFrees : Int)))
          (reapWalk s.recs s.deadRpcs (min count BATCH_MAX) 0 0 rx) t
          (fun u => reapWalk_recs_rel _ _ _ _ _ _ u)
          hg
        split
        · exact ih _ _ _ _ t hg1
        · exact hg1

lemma gone_applyOp (s : Sock) (t : Nat) (op : Op) (hg : Gone s t) :
    Gone (applyOp s op) t := by
  cases op with
  | newClient a =>
    show Gone (homa_rpc_new_client s a).2 t
    rcases new_client_spec s a with h | h | h | ⟨-, h⟩
    · rw [h]
      exact hg
    · rw [h]
      exact ⟨hg.1, hg.2.1, hg.2.2.1, hg.2.2.2.1, hg.2.2.2.2⟩
    · rw [h]
      exact ⟨hg.1, hg.2.1, hg.2.2.1, hg.2.2.2.1, hg.2.2.2.2⟩
    · rw [h]
      exact gone_newClientPublish s a t hg
  | newServer a =>
    show Gone (homa_rpc_new_server s a).2 t
    rcases new_server_spec s a with h | ⟨-, h⟩
    · rw [h]
      exact hg
    · rw [h]
      exact gone_newServerPublish s a t hg
  | freeRpc rpc =>
    show Gone (homa_rpc_free s rpc) t
    rcases free_spec s rpc with h | ⟨t0, r0, hrpc, hrec, hnd0, h⟩
    · rw [h]
      exact hg
    · rw [h]
      exact gone_freeUnlink s t0 r0 t hrec hnd0 hg
  | reap count => exact gone_reapLoop count s count 0 0 t hg
  | setShutdown => exact ⟨hg.1, hg.2.1, hg.2.2.1, hg.2.2.2.1, hg.2.2.2.2⟩
  | setBlockers t0 c g x =>
    show Gone (applyOp s (Op.setBlockers t0 c g x)) t
    simp only [applyOp]
    split
    · exact hg
    · rename_i r hrec
      refine ⟨?_, hg.2.1, hg.2.2.1, hg.2.2.2.1, hg.2.2.2.2⟩
      intro r2 hr
      have hr2 : (if t = t0 then
          some { r with cantReap := c, grantsInProgress := g, activeXmits := x }
        else s.recs t) = some r2 := hr
      by_cases ht : t = t0
      · rw [if_pos ht] at hr2
        injection hr2 with hr2
        subst hr2
        subst ht
        exact hg.1 r hrec
      · rw [if_neg ht] at hr2
        exact hg.1 r2 hr2

lemma gone_applyOps (s : Sock) (t : Nat) (ops : List Op) (hg : Gone s t) :
    Gone (applyOps s ops) t := by
  induction ops generalizing s with
  | nil => exact hg
  | cons op ops ih => exact ih (applyOp s op) (gone_applyOp s t op hg)

lemma free_makes_gone (s : Sock) (t : Nat) (r : Rpc) (inv : Inv s)
    (hrec : s.recs t = some r) : Gone (freeUnlink s t r) t := by
  refine ⟨?_, ?_, ?_, ?_, ?_⟩
  · intro r2 hr
    simp only [freeUnlink] at hr
    rw [if_pos trivial] at hr
    injection hr with hr
    subst hr
    rfl
  · intro i
    simp only [freeUnlink]
    intro hm
    have h2 := (List.mem_filter.mp hm).2
    simp at h2
  · intro i
    simp only [freeUnlink]
    intro hm
    have h2 := (List.mem_filter.mp hm).2
    simp at h2
  · simp only [freeUnlink]
    intro hm
    have h2 := (List.mem_filter.mp hm).2
    simp at h2
  · show t < s.nextToken
    exact inv.rec_token t r hrec

lemma find_client_mem (s : Sock) (id t : Nat)
    (h : homa_find_client_rpc s id = some t) :
    t ∈ s.clientBuckets (id % NUM_BUCKETS) :=
  List.mem_of_find?_eq_some h

lemma find_server_mem (s : Sock) (saddr sport id t : Nat)
    (h : homa_find_server_rpc s saddr sport id = some t) :
    t ∈ s.serverBuckets (id % NUM_BUCKETS) :=
  List.mem_of_find?_eq_some h

/-- C1: in every reachable quiescent state, an RPC record is linked on its
hash-bucket list iff it is linked on the socket's active list iff its state
is not DEAD, and a dead record is exactly the one linked on the dead list.
Consequently, once homa_rpc_free returns for a live RPC, the record remains
reachable only through the dead list — it is on no bucket list and not on
the active list — and no homa_find_client_rpc or homa_find_server_rpc
call, then or after any further sequence of operations, returns it. -/
theorem rpc_lists_iff_state_and_freed_never_found (s : Sock) (t : Nat)
    (r : Rpc) (hr : Reachable s) (hrec : s.recs t = some r) :
    ((r.state ≠ RpcState.dead ↔
        (t ∈ s.clientBuckets (r.id % NUM_BUCKETS) ∨
         t ∈ s.serverBuckets (r.id % NUM_BUCKETS))) ∧
      (r.state ≠ RpcState.dead ↔ t ∈ s.activeRpcs) ∧
      (r.state = RpcState.dead ↔ t ∈ s.deadRpcs)) ∧
    (r.state ≠ RpcState.dead →
      (t ∈ (homa_rpc_free s (some t)).deadRpcs ∧
        (∀ i, t ∉ (homa_rpc_free s (some t)).clientBuckets i) ∧
        (∀ i, t ∉ (homa_rpc_free s (some t)).serverBuckets i) ∧
        t ∉ (homa_rpc_free s (some t)).activeRpcs) ∧
      (∀ ops id, homa_find_client_rpc
          (applyOps (homa_rpc_free s (some t)) ops) id ≠ some t) ∧
      (∀ ops saddr sport id, homa_find_server_rpc
          (applyOps (homa_rpc_free s (some t)) ops) saddr sport id ≠
        some t)) := by
  have inv := inv_reachable s hr
  refine ⟨⟨inv.rec_bucket t r hrec, inv.rec_active t r hrec,
    inv.rec_dead t r hrec⟩, ?_⟩
  intro hnd
  have hfree : homa_rpc_free s (some t) = freeUnlink s t r := by
    simp [homa_rpc_free, hrec, hnd]
  have hgone : Gone (homa_rpc_free s (some t)) t := by
    rw [hfree]
    exact free_makes_gone s t r inv hrec
  refine ⟨⟨?_, hgone.2.1, hgone.2.2.1, hgone.2.2.2.1⟩, ?_, ?_⟩
  · rw [hfree]
    simp [freeUnlink]
  · intro ops id hfind
    have hgone2 := gone_applyOps _ t ops hgone
    exact hgone2.2.1 _ (find_client_mem _ id t hfind)
  · intro ops saddr sport id hfind
    have hgone2 := gone_applyOps _ t ops hgone
    exact hgone2.2.2.1 _ (find_server_mem _ saddr sport id t hfind)

/-- Socket holding one live client RPC (token 0), for the C1 witness. -/
def liveSock : Sock :=
  applyOp initSock (Op.newClient ⟨5, 77, true, true⟩)

/-- Record of that RPC. -/
def liveRpc : Rpc :=
  { id := 2, state := .outgoing, dport := 77, peer := 5
    magic := HOMA_RPC_MAGIC, pktsReady := false, cantReap := false
    grantsInProgress := 0, activeXmits := 0, msgoutLen := -1
    msgoutPkts := 0, msginLen := -1, msginPkts := 0, msginNumBpages := 0 }

/-- Witness for C1 at a concrete socket: the live RPC sits on the active
list, and after homa_rpc_free it sits only on the dead list and neither
find function returns it. -/
theorem rpc_lists_iff_state_and_freed_never_found_witness :
    liveSock.recs 0 = some liveRpc ∧ liveRpc.state ≠ RpcState.dead ∧
      (liveRpc.state ≠ RpcState.dead ↔ 0 ∈ liveSock.activeRpcs) ∧
      0 ∈ (homa_rpc_free liveSock (some 0)).deadRpcs ∧
      homa_find_client_rpc (applyOps (homa_rpc_free liveSock (some 0)) []) 2
        ≠ some 0 ∧
      homa_find_server_rpc (applyOps (homa_rpc_free liveSock (some 0)) [])
        5 77 2 ≠ some 0 := by
  have h := rpc_lists_iff_state_and_freed_never_found liveSock 0 liveRpc
    (Reachable.step initSock (Op.newClient ⟨5, 77, true, true⟩)
      Reachable.init)
    (by decide)
  have hnd : liveRpc.state ≠ RpcState.dead := by decide
  exact ⟨by decide, hnd, h.1.2.1, (h.2 hnd).1.1, (h.2 hnd).2.1 [] 2,
    (h.2 hnd).2.2 [] 5 77 2⟩

/-! ## Buffer pool (homa_pool).
The pool implementation file is not present under src/; only its unit
tests are. The definitions below are modelled from the spec's BufferPool
section, corrected where src/test/unit_homa_pool.c pins a different
behaviour (initial free_bpages, minimum region size), and simplified to
the quiescent single-core case: descriptor locks always succeed and no
concurrent stealing occurs. -/

def HOMA_BPAGE_SIZE : Nat := 65536

/-- Modelled from the spec and tests: minimum number of bpages a region
must supply. The tests pin only that 3 bpages are rejected with EINVAL
and 100 are accepted; 10 is used here. -/
def MIN_POOL_SIZE : Nat := 10

/-- One bpage descriptor: reference count, owning core (-1 if none) and
lease expiration in cycles. -/
@[ext]
structure BpageDesc where
  refs : Nat
  owner : Int
  expiration : Nat
deriving DecidableEq

/-- Buffer pool state, single-core view: the per-core cursor, page hint
and allocated watermark are inlined. regionValid models a non-null
region pointer. -/
@[ext]
structure Pool where
  regionValid : Bool
  num_bpages : Nat
  descriptors : Nat → BpageDesc
  free_bpages : Nat
  next_candidate : Nat
  page_hint : Nat
  allocated : Nat

/-- Modelled from the spec (init), corrected by the repo tests: the
region must be bpage-aligned and supply at least MIN_POOL_SIZE bpages;
every descriptor starts {refs = 0, owner = -1, expiration = 0} and
free_bpages = num_bpages (the tests pin 100, not the spec's 99, for a
100-bpage region). -/
def homa_pool_init (addr len : Nat) : Except Err Pool :=
  if addr % HOMA_BPAGE_SIZE != 0 then Except.error Err.einval
  else if len / HOMA_BPAGE_SIZE < MIN_POOL_SIZE then Except.error Err.einval
  else Except.ok
    { regionValid := true
      num_bpages := len / HOMA_BPAGE_SIZE
      descriptors := fun _ => { refs := 0, owner := -1, expiration := 0 }
      free_bpages := len / HOMA_BPAGE_SIZE
      next_candidate := 0
      page_hint := 0
      allocated := 0 }

/-- The spec's init taken literally: any aligned region of at least
2 bpages accepted, the last bpage reserved as a never-expiring sentinel,
and free_bpages = num_bpages - 1. Kept only to compare against the
behaviour the repo tests pin. -/
def pool_init_spec (addr len : Nat) : Except Err Pool :=
  if addr % HOMA_BPAGE_SIZE != 0 || len < 2 * HOMA_BPAGE_SIZE then
    Except.error Err.einval
  else
    Except.ok
      { regionValid := true
        num_bpages := len / HOMA_BPAGE_SIZE
        descriptors := fun i =>
          if i = len / HOMA_BPAGE_SIZE - 1 then
            { refs := 0, owner := -2, expiration := U64 }
          else { refs := 0, owner := -1, expiration := 0 }
        free_bpages := len / HOMA_BPAGE_SIZE - 1
        next_candidate := 0
        page_hint := 0
        allocated := 0 }

/-- Modelled from the spec (get_pages eligibility): a candidate bpage is
eligible if fully free and unowned, or owned but expired with no
references. -/
def pageEligible (d : BpageDesc) (now : Nat) : Bool :=
  (d.refs == 0 && d.owner == -1) ||
    (d.owner != -1 && decide (d.expiration ≤ now) && d.refs == 0)

/-- Modelled from the spec (get_pages scan): advance the cursor modulo
num_bpages until an eligible page is found, giving up after fuel
attempts. -/
def findCandidate (now : Nat) : Nat → Pool → Option (Pool × Nat)
  | 0, _ => none
  | fuel + 1, p =>
    let cur := p.next_candidate % p.num_bpages
    let p1 := { p with next_candidate := cur + 1 }
    if pageEligible (p.descriptors cur) now then some (p1, cur)
    else findCandidate now fuel p1

/-- Modelled from the spec (get_pages claim step): set refs to 1 (2 when
taking ownership), record the owner and lease, and credit free_bpages
when stealing a page that had an owner (it was not counted free). -/
def claimPage (p : Pool) (cur : Nat) (setOwner : Bool) (coreId : Int)
    (now lease : Nat) : Pool :=
  let d := p.descriptors cur
  { p with
    free_bpages :=
      if d.owner != -1 then p.free_bpages + 1 else p.free_bpages
    descriptors := fun i =>
      if i = cur then
        { refs := if setOwner then 2 else 1
          owner := if setOwner then coreId else -1
          expiration := if setOwner then now + lease else d.expiration }
      else p.descriptors i }

/-- Modelled from the spec: claim `need` eligible pages one at a time,
accumulating claimed page indexes in reverse. -/
def getPagesGo (setOwner : Bool) (coreId : Int) (now lease : Nat) :
    Nat → Pool → List Nat → Option (Pool × List Nat)
  | 0, p, acc => some (p, acc.reverse)
  | need + 1, p, acc =>
    match findCandidate now p.num_bpages p with
    | none => none
    | some (p1, cur) =>
      getPagesGo setOwner coreId now lease need
        (claimPage p1 cur setOwner coreId now lease) (cur :: acc)

/-- Modelled from the spec (get_pages): fail if the free gauge is below
count, else debit the gauge and scan; a scan that cannot find a page
within num_bpages attempts fails (modelled as leaving the pool
unchanged; the caller releases anything it already holds). -/
def homa_pool_get_pages (p : Pool) (count : Nat) (setOwner : Bool)
    (coreId : Int) (now lease : Nat) : Option (Pool × List Nat) :=
  if p.free_bpages < count then none
  else
    getPagesGo setOwner coreId now lease count
      { p with free_bpages := p.free_bpages - count } []

/-- Modelled from the spec (release_buffers body): decrement the
offset's descriptor refs; when refs drops from 1 to 0 on an unowned
page, credit free_bpages. -/
def releaseOne (p : Pool) (off : Nat) : Pool :=
  let i := off / HOMA_BPAGE_SIZE
  let d := p.descriptors i
  { p with
    free_bpages :=
      if d.refs == 1 && d.owner == -1 then p.free_bpages + 1
      else p.free_bpages
    descriptors := fun j =>
      if j = i then { d with refs := d.refs - 1 } else p.descriptors j }

/-- Modelled from the spec (release_buffers): a no-op when the region
pointer is null, else releases each recorded offset. -/
def homa_pool_release_buffers (p : Pool) (offs : List Nat) : Pool :=
  if p.regionValid then offs.foldl releaseOne p else p

/-- Modelled from the spec (allocate): full bpages for the bulk of the
message, then a tail carved from the core's owned hint page when it is
owned, unexpired and has room, else from a fresh owned page; on failure
every bpage acquired for this call is released. -/
def homa_pool_allocate (p : Pool) (L : Nat) (coreId : Int)
    (now lease : Nat) : Option (List Nat) × Pool :=
  let full := L / HOMA_BPAGE_SIZE
  let tail := L % HOMA_BPAGE_SIZE
  if p.free_bpages < full + (if 0 < tail then 1 else 0) then (none, p)
  else
    match homa_pool_get_pages p full false coreId now lease with
    | none => (none, p)
    | some (p1, bulk) =>
      let offs := bulk.map (fun g => g * HOMA_BPAGE_SIZE)
      if tail = 0 then (some offs, p1)
      else
        let d := p1.descriptors p1.page_hint
        if d.owner == coreId && decide (now < d.expiration) &&
            decide (p1.allocated + tail ≤ HOMA_BPAGE_SIZE) then
          (some (offs ++ [p1.page_hint * HOMA_BPAGE_SIZE + p1.allocated]),
           { p1 with
             descriptors := fun i =>
               if i = p1.page_hint then { d with refs := d.refs + 1 }
               else p1.descriptors i
             allocated := p1.allocated + tail })
        else
          match homa_pool_get_pages p1 1 true coreId now lease with
          | none => (none, homa_pool_release_buffers p1 offs)
          | some (p2, tpages) =>
            let tp := tpages.headD 0
            (some (offs ++ [tp * HOMA_BPAGE_SIZE]),
             { p2 with page_hint := tp, allocated := tail })

/-- The 100-bpage pool the repo's fixture initializes. -/
def pool0 : Pool :=
  { regionValid := true
    num_bpages := 100
    descriptors := fun _ => { refs := 0, owner := -1, expiration := 0 }
    free_bpages := 100
    next_candidate := 0
    page_hint := 0
    allocated := 0 }

/-- Translation of repo test homa_pool_init__basics: a 100-bpage region
initializes with num_bpages = 100 and descriptors[98].owner = -1. -/
theorem pool_test_init_basics :
    (homa_pool_init 0 (100 * HOMA_BPAGE_SIZE)).toOption.map
        (fun p => (p.num_bpages, (p.descriptors 98).owner))
      = some (100, -1) := by decide

/-- Translation of repo test homa_pool_get_pages__basics: two pages from
a fresh 100-bpage pool are [0, 1], page 1 gets refs = 1 and owner = -1,
the cursor advances to 2, and free_bpages drops to 98 — pinning the
initial gauge at 100, not the spec's num_bpages - 1. -/
theorem pool_test_get_pages_basics :
    (homa_pool_get_pages pool0 2 false 1 0 0).map
        (fun x => (x.2, (x.1.descriptors 1).refs, (x.1.descriptors 1).owner,
          x.1.next_candidate, x.1.free_bpages))
      = some ([0, 1], 1, -1, 2, 98) := by decide

/-- Translation of repo test homa_pool_get_pages__not_enough_space:
with the gauge forced to 1 a request for 2 pages fails; at 2 it
succeeds. -/
def poolFree (n : Nat) : Pool := { pool0 with free_bpages := n }

theorem pool_test_get_pages_not_enough_space :
    (homa_pool_get_pages (poolFree 1) 2 false 1 0 0).isSome = false ∧
    (homa_pool_get_pages (poolFree 2) 2 false 1 0 0).isSome = true := by
  decide

/-- Translation of repo test homa_pool_get_pages__steal_expired_page:
page 0 owned by core 5 with an expired lease is stolen, its owner reset,
and the gauge credited for the steal (20 becomes 19, not 18). -/
theorem pool_test_steal_expired_page :
    (homa_pool_get_pages
        { pool0 with
          descriptors := fun i =>
            if i = 0 then { refs := 0, owner := 5, expiration := 4999 }
            else { refs := 0, owner := -1, expiration := 0 }
          free_bpages := 20 } 2 false 1 5000 0).map
        (fun x => (x.2, (x.1.descriptors 0).owner, x.1.free_bpages))
      = some ([0, 1], -1, 19) := by decide

/-- Translation of repo test homa_pool_get_pages__set_owner: claiming
with set_owner records the calling core as owner, sets the lease
expiration, and leaves refs = 2. -/
theorem pool_test_set_owner :
    (homa_pool_get_pages pool0 2 true 1 5000 1000).map
        (fun x => ((x.1.descriptors 0).owner, (x.1.descriptors 1).expiration,
          (x.1.descriptors 1).refs))
      = some (1, 6000, 2) := by decide

/-- Translation of repo test homa_pool_init__region_too_small: a
3-bpage region is rejected with EINVAL. -/
theorem pool_test_region_too_small :
    homa_pool_init 0 (3 * HOMA_BPAGE_SIZE) = Except.error Err.einval := rfl

/-- Translation of repo test homa_pool_init__region_not_page_aligned: a
misaligned region is rejected with EINVAL. -/
theorem pool_test_region_not_aligned :
    homa_pool_init 10 (100 * HOMA_BPAGE_SIZE) = Except.error Err.einval := rfl

/-- Translation of repo test homa_pool_allocate__basics: a 150000-byte
message takes bulk pages 0 and 1 plus an owned tail page 2; offsets are
[0, bpage, 2*bpage], the hint becomes 2 and allocated 150000 - 2*bpage. -/
theorem pool_test_allocate_basics :
    ((homa_pool_allocate pool0 150000 1 0 1000).1
        = some [0, 65536, 131072]) ∧
    ((homa_pool_allocate pool0 150000 1 0 1000).2.page_hint = 2 ∧
     (homa_pool_allocate pool0 150000 1 0 1000).2.allocated = 18928 ∧
     ((homa_pool_allocate pool0 150000 1 0 1000).2.descriptors 0).owner
        = -1) := by decide

/-- Translation of repo test homa_pool_allocate__cant_allocate_full_bpages:
with only 1 free bpage a 150000-byte allocation fails and the gauge is
untouched. -/
theorem pool_test_cant_allocate_full :
    (homa_pool_allocate (poolFree 1) 150000 1 0 1000).1 = none ∧
    ((homa_pool_allocate (poolFree 1) 150000 1 0 1000).2).free_bpages = 1 := by
  decide

/-- Translation of repo test homa_pool_allocate__cant_allocate_partial_bpage:
5 free bpages cannot cover 5 full pages plus a tail; the call fails and
refs and the gauge are untouched. -/
theorem pool_test_cant_allocate_partial :
    (homa_pool_allocate (poolFree 5) (5 * HOMA_BPAGE_SIZE + 100)
      1 0 1000).1 = none ∧
    ((homa_pool_allocate (poolFree 5) (5 * HOMA_BPAGE_SIZE + 100)
      1 0 1000).2.descriptors 0).refs = 0 ∧
    (homa_pool_allocate (poolFree 5) (5 * HOMA_BPAGE_SIZE + 100)
      1 0 1000).2.free_bpages = 5 := by decide

/-- Pool state after the two allocations of repo test
homa_pool_release_buffers (messages of 150000 and 2000 bytes). -/
def poolAfterTwo : Pool :=
  (homa_pool_allocate
    (homa_pool_allocate pool0 150000 1 0 1000).2 2000 1 0 1000).2

/-- Translation of repo test homa_pool_release_buffers: after the two
allocations refs are [1, 1, 3] on pages 0-2 with free_bpages 97;
releasing the first message's offsets [0, bpage, 2*bpage] drops them to
[0, 0, 2] and free_bpages to 99; with a null region the release is a
no-op. -/
def poolReleased : Pool := homa_pool_release_buffers poolAfterTwo [0, 65536, 131072]

theorem pool_test_release_buffers :
    ((poolAfterTwo.descriptors 0).refs = 1 ∧
     (poolAfterTwo.descriptors 1).refs = 1 ∧
     (poolAfterTwo.descriptors 2).refs = 3 ∧
     poolAfterTwo.free_bpages = 97) ∧
    ((poolReleased.descriptors 0).refs = 0 ∧
     (poolReleased.descriptors 1).refs = 0 ∧
     (poolReleased.descriptors 2).refs = 2 ∧
     poolReleased.free_bpages = 99) ∧
    ((homa_pool_release_buffers { poolAfterTwo with regionValid := false }
        [0, 65536, 131072]).descriptors 0).refs = 1 := by decide

/-- Descriptor after a claim without ownership: one reference, no
owner, expiration untouched. -/
def claimedDesc (d : BpageDesc) : BpageDesc :=
  { refs := 1, owner := -1, expiration := d.expiration }

lemma eligible_refs_zero (d : BpageDesc) (now : Nat) (ho : d.owner = -1)
    (he : pageEligible d now = true) : d.refs = 0 := by
  simp [pageEligible, ho] at he
  exact he

lemma findCandidate_spec (now : Nat) : ∀ (fuel : Nat) (p p' : Pool) (cur : Nat),
    findCandidate now fuel p = some (p', cur) →
    p'.descriptors = p.descriptors ∧ p'.free_bpages = p.free_bpages ∧
    p'.num_bpages = p.num_bpages ∧ p'.regionValid = p.regionValid ∧
    p'.page_hint = p.page_hint ∧ p'.allocated = p.allocated ∧
    pageEligible (p.descriptors cur) now = true := by
  intro fuel
  induction fuel with
  | zero =>
    intro p p' cur h
    cases h
  | succ fuel ih =>
    intro p p' cur h
    simp only [findCandidate] at h
    by_cases he :
        pageEligible (p.descriptors (p.next_candidate % p.num_bpages)) now
          = true
    · rw [if_pos he] at h
      simp only [Option.some.injEq, Prod.mk.injEq] at h
      obtain ⟨h1, h2⟩ := h
      subst h1
      subst h2
      exact ⟨rfl, rfl, rfl, rfl, rfl, rfl, he⟩
    · rw [if_neg he] at h
      obtain ⟨h1, h2, h3, h4, h5, h6, h7⟩ := ih _ _ _ h
      exact ⟨h1, h2, h3, h4, h5, h6, h7⟩

lemma getPagesGo_claims (coreId : Int) (now lease : Nat) :
    ∀ (need : Nat) (p : Pool) (acc : List Nat) (p' : Pool)
      (pages : List Nat),
    getPagesGo false coreId now lease need p acc = some (p', pages) →
    (∀ i, (p.descriptors i).owner = -1) →
    p'.free_bpages = p.free_bpages ∧
    p'.regionValid = p.regionValid ∧
    p'.page_hint = p.page_hint ∧ p'.allocated = p.allocated ∧
    ∃ news : List Nat,
      news.length = need ∧
      pages = acc.reverse ++ news ∧
      news.Nodup ∧
      (∀ i, i ∉ news → p'.descriptors i = p.descriptors i) ∧
      (∀ i, i ∈ news → (p.descriptors i).refs = 0 ∧
        p'.descriptors i = claimedDesc (p.descriptors i)) := by
  intro need
  induction need with
  | zero =>
    intro p acc p' pages h hown
    simp only [getPagesGo, Option.some.injEq, Prod.mk.injEq] at h
    obtain ⟨h1, h2⟩ := h
    subst h1
    subst h2
    exact ⟨rfl, rfl, rfl, rfl, [], rfl, by simp, List.nodup_nil,
      fun i _ => rfl, fun i hi => absurd hi (List.not_mem_nil i)⟩
  | succ need ih =>
    intro p acc p' pages h hown
    simp only [getPagesGo] at h
    cases hf : findCandidate now p.num_bpages p with
    | none =>
      rw [hf] at h
      cases h
    | some pc =>
      obtain ⟨p1, cur⟩ := pc
      rw [hf] at h
      replace h : getPagesGo false coreId now lease need
          (claimPage p1 cur false coreId now lease) (cur :: acc)
          = some (p', pages) := h
      obtain ⟨hd, hfree, -, hregv, hhint, halloc, helig⟩ :=
        findCandidate_spec now _ p p1 cur hf
      have ho1 : (p1.descriptors cur).owner = -1 := by
        rw [hd]
        exact hown cur
      have hrefs0 : (p.descriptors cur).refs = 0 :=
        eligible_refs_zero _ now (hown cur) helig
      have hq : claimPage p1 cur false coreId now lease =
          { p1 with
            descriptors := fun i =>
              if i = cur then claimedDesc (p1.descriptors cur)
              else p1.descriptors i } := by
        simp only [claimPage, ho1, claimedDesc]
        simp
      rw [hq] at h
      have hown1 : ∀ i,
          (({ p1 with
            descriptors := fun i =>
              if i = cur then claimedDesc (p1.descriptors cur)
              else p1.descriptors i } : Pool).descriptors i).owner = -1 := by
        intro i
        by_cases hi : i = cur
        · simp only [hi, if_pos rfl]
          rfl
        · show ((if i = cur then claimedDesc (p1.descriptors cur)
            else p1.descriptors i)).owner = -1
          rw [if_neg hi, hd]
          exact hown i
      obtain ⟨ihfree, ihreg, ihhint, ihalloc, news, hlen, hpages, hnodup,
        hunch, hclaim⟩ := ih _ _ _ _ h hown1
      have hcurnotin : cur ∉ news := by
        intro hin
        have h2 := (hclaim cur hin).1
        simp only [if_pos rfl] at h2
        simp [claimedDesc] at h2
      refine ⟨?_, ?_, ?_, ?_, cur :: news, ?_, ?_, ?_, ?_, ?_⟩
      · rw [ihfree]
        exact hfree
      · exact ihreg.trans hregv
      · rw [ihhint]
        exact hhint
      · rw [ihalloc]
        exact halloc
      · simp [hlen]
      · rw [hpages]
        simp
      · exact List.nodup_cons.mpr ⟨hcurnotin, hnodup⟩
      · intro i hi
        have hine : i ≠ cur := fun he => hi (he ▸ List.mem_cons_self i news)
        have hinn : i ∉ news := fun hm => hi (List.mem_cons_of_mem cur hm)
        have h2 : p'.descriptors i = (if i = cur
            then claimedDesc (p1.descriptors cur) else p1.descriptors i) :=
          hunch i hinn
        rw [if_neg hine] at h2
        rw [h2, hd]
      · intro i hi
        rcases List.mem_cons.mp hi with he | hm
        · subst he
          refine ⟨hrefs0, ?_⟩
          have h2 : p'.descriptors i = (if i = i
              then claimedDesc (p1.descriptors i) else p1.descriptors i) :=
            hunch i hcurnotin
          rw [if_pos rfl] at h2
          rw [h2, hd]
        · have hine : i ≠ cur := fun he => hcurnotin (he ▸ hm)
          obtain ⟨h2, h3⟩ := hclaim i hm
          have h2b : ((if i = cur then claimedDesc (p1.descriptors cur)
              else p1.descriptors i)).refs = 0 := h2
          have h3b : p'.descriptors i = claimedDesc (if i = cur
              then claimedDesc (p1.descriptors cur) else p1.descriptors i) :=
            h3
          rw [if_neg hine] at h2b h3b
          rw [hd] at h2b h3b
          exact ⟨h2b, h3b⟩

lemma releaseOne_claimed (q : Pool) (g : Nat) (d0 : BpageDesc)
    (h1 : d0.refs = 0) (h2 : d0.owner = -1)
    (hq0 : q.descriptors g = claimedDesc d0) :
    releaseOne q (g * HOMA_BPAGE_SIZE) =
      { q with
        free_bpages := q.free_bpages + 1
        descriptors := fun j => if j = g then d0 else q.descriptors j } := by
  have hidx : g * HOMA_BPAGE_SIZE / HOMA_BPAGE_SIZE = g :=
    Nat.mul_div_cancel g (by norm_num [HOMA_BPAGE_SIZE])
  have hd0 : ({ refs := 0, owner := -1, expiration := d0.expiration } : BpageDesc) = d0 := by
    cases d0 with
    | mk r o e =>
      simp only at h1 h2
      rw [show r = 0 from h1, show o = -1 from h2]
  simp only [releaseOne, hidx]
  apply Pool.ext
  · rfl
  · rfl
  · funext j
    show (if j = g then { refs := (q.descriptors g).refs - 1, owner := (q.descriptors g).owner, expiration := (q.descriptors g).expiration } else q.descriptors j) = (if j = g then d0 else q.descriptors j)
    by_cases hj : j = g
    · rw [if_pos hj, if_pos hj, hq0]
      simp only [claimedDesc]
      exact hd0
    · rw [if_neg hj, if_neg hj]
  · show (if ((q.descriptors g).refs == 1 && (q.descriptors g).owner == -1) = true then q.free_bpages + 1 else q.free_bpages) = q.free_bpages + 1
    rw [hq0]
    simp [claimedDesc]
  · rfl
  · rfl
  · rfl

lemma releaseFold_restore (dtgt : Nat → BpageDesc) :
    ∀ (news : List Nat) (q : Pool),
    news.Nodup →
    (∀ i, i ∉ news → q.descriptors i = dtgt i) →
    (∀ i, i ∈ news → (dtgt i).refs = 0 ∧ (dtgt i).owner = -1 ∧
      q.descriptors i = claimedDesc (dtgt i)) →
    (∀ i, (List.foldl releaseOne q (news.map (fun g => g * HOMA_BPAGE_SIZE))).descriptors i = dtgt i) ∧
    (List.foldl releaseOne q (news.map (fun g => g * HOMA_BPAGE_SIZE))).free_bpages = q.free_bpages + news.length := by
  intro news
  induction news with
  | nil =>
    intro q hnd hout hin
    exact ⟨fun i => hout i (List.not_mem_nil i), by simp⟩
  | cons g news ih =>
    intro q hnd hout hin
    obtain ⟨hgnot, hnd'⟩ := List.nodup_cons.mp hnd
    obtain ⟨hr0, ho0, hq0⟩ := hin g (List.mem_cons_self g news)
    have hstep := releaseOne_claimed q g (dtgt g) hr0 ho0 hq0
    have hq1out : ∀ i, i ∉ news →
        (({ q with free_bpages := q.free_bpages + 1, descriptors := fun j => if j = g then dtgt g else q.descriptors j } : Pool).descriptors i) = dtgt i := by
      intro i hi
      show (if i = g then dtgt g else q.descriptors i) = dtgt i
      by_cases hig : i = g
      · rw [if_pos hig, hig]
      · rw [if_neg hig]
        exact hout i (fun hm => (List.mem_cons.mp hm).elim hig hi)
    have hq1in : ∀ i, i ∈ news → (dtgt i).refs = 0 ∧ (dtgt i).owner = -1 ∧
        (({ q with free_bpages := q.free_bpages + 1, descriptors := fun j => if j = g then dtgt g else q.descriptors j } : Pool).descriptors i) = claimedDesc (dtgt i) := by
      intro i hi
      have hig : i ≠ g := fun he => hgnot (he ▸ hi)
      obtain ⟨h1, h2, h3⟩ := hin i (List.mem_cons_of_mem g hi)
      refine ⟨h1, h2, ?_⟩
      show (if i = g then dtgt g else q.descriptors i) = claimedDesc (dtgt i)
      rw [if_neg hig]
      exact h3
    obtain ⟨ih1, ih2⟩ := ih _ hnd' hq1out hq1in
    rw [List.map_cons, List.foldl_cons, hstep]
    refine ⟨ih1, ?_⟩
    rw [ih2]
    show q.free_bpages + 1 + news.length = q.free_bpages + (g :: news).length
    simp only [List.length_cons]
    omega

/-- C6: after a successful homa_pool_init, num_bpages = region length /
bpage size, every descriptor — the last one included, there being no
sentinel — holds refs = 0, owner = -1, expiration = 0, and free_bpages
equals num_bpages, not num_bpages - 1 as claimed. -/
theorem pool_init_fields (addr len : Nat) (p : Pool)
    (h : homa_pool_init addr len = Except.ok p) :
    p.regionValid = true ∧ p.num_bpages = len / HOMA_BPAGE_SIZE ∧
    p.free_bpages = len / HOMA_BPAGE_SIZE ∧
    ∀ i, p.descriptors i = { refs := 0, owner := -1, expiration := 0 } := by
  simp only [homa_pool_init] at h
  by_cases h1 : (addr % HOMA_BPAGE_SIZE != 0) = true
  · rw [if_pos h1] at h
    cases h
  · rw [if_neg h1] at h
    by_cases h2 : len / HOMA_BPAGE_SIZE < MIN_POOL_SIZE
    · rw [if_pos h2] at h
      cases h
    · rw [if_neg h2] at h
      injection h with h
      subst h
      exact ⟨rfl, rfl, rfl, fun i => rfl⟩

/-- Witness for C6 on the repo fixture's 100-bpage region. -/
theorem pool_init_fields_witness :
    pool0.regionValid = true ∧
    pool0.free_bpages = 100 * HOMA_BPAGE_SIZE / HOMA_BPAGE_SIZE ∧
    pool0.descriptors 99 = { refs := 0, owner := -1, expiration := 0 } := by
  have h := pool_init_fields 0 (100 * HOMA_BPAGE_SIZE) pool0 (by rfl)
  exact ⟨h.1, h.2.2.1, h.2.2.2 99⟩

/-- Counterexample for C6: on the 100-bpage region the model (pinned by
repo test homa_pool_get_pages__basics, which requires free_bpages = 98
after two claims) initializes free_bpages to 100, not 99, and leaves the
last bpage allocatable; the spec-literal init gives 99 and would leave
97 after the same two claims, contradicting the test. -/
theorem pool_init_free_count_counterexample :
    homa_pool_init 0 (100 * HOMA_BPAGE_SIZE) = Except.ok pool0 ∧
    (pool0.free_bpages = 100 ∧ pool0.free_bpages ≠ 99 ∧
    pageEligible (pool0.descriptors 99) 0 = true ∧
    (homa_pool_get_pages pool0 2 false 1 0 0).map
        (fun x => x.1.free_bpages) = some 98 ∧
    (pool_init_spec 0 (100 * HOMA_BPAGE_SIZE)).toOption.map
        (fun q => q.free_bpages) = some 99 ∧
    ((pool_init_spec 0 (100 * HOMA_BPAGE_SIZE)).toOption.map
        (fun q => (homa_pool_get_pages q 2 false 1 0 0).map
          (fun x => x.1.free_bpages))) = some (some 97)) :=
  ⟨rfl, by decide⟩

/-- C7: homa_pool_init fails with EINVAL exactly when the region is not
bpage-aligned or supplies fewer than MIN_POOL_SIZE bpages; in particular
an aligned 2-bpage region is rejected, contrary to the claim's
"length ≥ 2·bpage_size is accepted". -/
theorem pool_init_error_condition (addr len : Nat) :
    homa_pool_init addr len = Except.error Err.einval ↔
      (addr % HOMA_BPAGE_SIZE ≠ 0 ∨ len / HOMA_BPAGE_SIZE < MIN_POOL_SIZE) := by
  by_cases h1 : addr % HOMA_BPAGE_SIZE = 0
  · by_cases h2 : len / HOMA_BPAGE_SIZE < MIN_POOL_SIZE
    · simp [homa_pool_init, h1, h2]
    · simp [homa_pool_init, h1, h2]
  · simp [homa_pool_init, h1]

/-- Counterexample for C7: a bpage-aligned region of 3 bpages (which is
at least 2·bpage_size) is rejected with EINVAL, as repo test
homa_pool_init__region_too_small pins, while the spec-literal init
accepts it. -/
theorem pool_init_min_size_counterexample :
    2 * HOMA_BPAGE_SIZE ≤ 3 * HOMA_BPAGE_SIZE ∧
    (0 : Nat) % HOMA_BPAGE_SIZE = 0 ∧
    homa_pool_init 0 (3 * HOMA_BPAGE_SIZE) = Except.error Err.einval ∧
    (pool_init_spec 0 (3 * HOMA_BPAGE_SIZE)).toOption.isSome = true :=
  ⟨by decide, rfl, rfl, rfl⟩

/-- C8: when homa_pool_allocate cannot obtain all the bpages a message
requires it fails and the pool is restored exactly: every descriptor
(hence every refs count) and free_bpages are as before the call, on any
initialized pool whose pages are unowned. -/
theorem pool_allocate_failure_restores (p : Pool) (L : Nat) (coreId : Int)
    (now lease : Nat)
    (hown : ∀ i, (p.descriptors i).owner = -1)
    (hreg : p.regionValid = true)
    (hcore : coreId ≠ -1)
    (hfail : (homa_pool_allocate p L coreId now lease).1 = none) :
    (∀ i, (homa_pool_allocate p L coreId now lease).2.descriptors i
      = p.descriptors i) ∧
    (homa_pool_allocate p L coreId now lease).2.free_bpages
      = p.free_bpages := by
  by_cases hpre : p.free_bpages < L / HOMA_BPAGE_SIZE +
      (if 0 < L % HOMA_BPAGE_SIZE then 1 else 0)
  · have hres : homa_pool_allocate p L coreId now lease = (none, p) := by
      simp only [homa_pool_allocate]
      rw [if_pos hpre]
    rw [hres]
    exact ⟨fun i => rfl, rfl⟩
  · cases hgp : homa_pool_get_pages p (L / HOMA_BPAGE_SIZE) false coreId
        now lease with
    | none =>
      have hres : homa_pool_allocate p L coreId now lease = (none, p) := by
        simp only [homa_pool_allocate, hgp]
        rw [if_neg hpre]
      rw [hres]
      exact ⟨fun i => rfl, rfl⟩
    | some pr =>
      obtain ⟨p1, bulk⟩ := pr
      have hfree0 : ¬ p.free_bpages < L / HOMA_BPAGE_SIZE := by
        intro hlt
        exact hpre (lt_of_lt_of_le hlt (Nat.le_add_right _ _))
      have hgp2 : getPagesGo false coreId now lease (L / HOMA_BPAGE_SIZE)
          { p with free_bpages := p.free_bpages - L / HOMA_BPAGE_SIZE } []
          = some (p1, bulk) := by
        have h3 := hgp
        simp only [homa_pool_get_pages] at h3
        rw [if_neg hfree0] at h3
        exact h3
      obtain ⟨hfree1, hreg1, hhint1, halloc1, news, hlen, hpages, hnodup,
        hunch, hclaim⟩ := getPagesGo_claims coreId now lease _ _ _ _ _ hgp2
        (fun i => hown i)
      have hbulk : bulk = news := by simpa using hpages
      have hown1 : ∀ i, (p1.descriptors i).owner = -1 := by
        intro i
        by_cases hi : i ∈ news
        · rw [(hclaim i hi).2]
          rfl
        · rw [hunch i hi]
          exact hown i
      by_cases htail : L % HOMA_BPAGE_SIZE = 0
      · have hres : (homa_pool_allocate p L coreId now lease).1
            = some (bulk.map (fun g => g * HOMA_BPAGE_SIZE)) := by
          simp only [homa_pool_allocate, hgp]
          rw [if_neg hpre, if_pos htail]
        rw [hres] at hfail
        cases hfail
      · have hbeq : ((-1 : Int) == coreId) = false :=
          beq_eq_false_iff_ne.mpr (fun he => hcore he.symm)
        have hcfalse : ((p1.descriptors p1.page_hint).owner == coreId
            && decide (now < (p1.descriptors p1.page_hint).expiration)
            && decide (p1.allocated + L % HOMA_BPAGE_SIZE
              ≤ HOMA_BPAGE_SIZE)) = false := by
          rw [hown1 p1.page_hint, hbeq]
          rfl
        have hcneg : ¬ (((p1.descriptors p1.page_hint).owner == coreId
            && decide (now < (p1.descriptors p1.page_hint).expiration)
            && decide (p1.allocated + L % HOMA_BPAGE_SIZE
              ≤ HOMA_BPAGE_SIZE)) = true) := by
          rw [hcfalse]
          exact Bool.false_ne_true
        cases hgt : homa_pool_get_pages p1 1 true coreId now lease with
        | some pr2 =>
          obtain ⟨p2, tps⟩ := pr2
          simp only [homa_pool_allocate, hgp, hgt] at hfail
          rw [if_neg hpre, if_neg htail, if_neg hcneg] at hfail
          cases hfail
        | none =>
          have hres : homa_pool_allocate p L coreId now lease
              = (none, homa_pool_release_buffers p1
                  (bulk.map (fun g => g * HOMA_BPAGE_SIZE))) := by
            simp only [homa_pool_allocate, hgp, hgt]
            rw [if_neg hpre, if_neg htail, if_neg hcneg]
          have hregion1 : p1.regionValid = true := by
            rw [hreg1]
            exact hreg
          have hrel2 : homa_pool_release_buffers p1
              (news.map (fun g => g * HOMA_BPAGE_SIZE))
              = List.foldl releaseOne p1
                  (news.map (fun g => g * HOMA_BPAGE_SIZE)) := by
            simp [homa_pool_release_buffers, hregion1]
          have hout : ∀ i, i ∉ news →
              p1.descriptors i = p.descriptors i :=
            fun i hi => hunch i hi
          have hin : ∀ i, i ∈ news → (p.descriptors i).refs = 0 ∧
              (p.descriptors i).owner = -1 ∧
              p1.descriptors i = claimedDesc (p.descriptors i) :=
            fun i hi => ⟨(hclaim i hi).1, hown i, (hclaim i hi).2⟩
          obtain ⟨hf1, hf2⟩ :=
            releaseFold_restore p.descriptors news p1 hnodup hout hin
          rw [hres, hbulk]
          refine ⟨fun i => ?_, ?_⟩
          · show (homa_pool_release_buffers p1
              (news.map (fun g => g * HOMA_BPAGE_SIZE))).descriptors i
              = p.descriptors i
            rw [hrel2]
            exact hf1 i
          · show (homa_pool_release_buffers p1
              (news.map (fun g => g * HOMA_BPAGE_SIZE))).free_bpages
              = p.free_bpages
            rw [hrel2, hf2, hlen]
            have hfree2 : p1.free_bpages
                = p.free_bpages - L / HOMA_BPAGE_SIZE := hfree1
            rw [hfree2]
            have hge : L / HOMA_BPAGE_SIZE ≤ p.free_bpages :=
              Nat.le_of_not_lt hfree0
            omega

/-- Witness for C8: a pool with one free bpage cannot hold a
150000-byte message; the call fails with descriptors and gauge
untouched. -/
theorem pool_allocate_failure_restores_witness :
    (homa_pool_allocate (poolFree 1) 150000 1 0 1000).1 = none ∧
    (homa_pool_allocate (poolFree 1) 150000 1 0 1000).2.descriptors 0
      = (poolFree 1).descriptors 0 ∧
    (homa_pool_allocate (poolFree 1) 150000 1 0 1000).2.free_bpages
      = (poolFree 1).free_bpages :=
  ⟨rfl,
   (pool_allocate_failure_restores (poolFree 1) 150000 1 0 1000
     (fun i => rfl) rfl (by decide) rfl).1 0,
   (pool_allocate_failure_restores (poolFree 1) 150000 1 0 1000
     (fun i => rfl) rfl (by decide) rfl).2⟩

/-- C9: for whole-bpage messages, release_buffers is inverse to
allocate: releasing the offsets the allocate call recorded returns every
descriptor — hence every refs count — and free_bpages to their values
before the allocate, on any initialized pool with unowned pages. (The
claim's "every descriptor returns to refs = 0 after matched calls" fails
when the message has a tail carved from a fresh owned page, which keeps
its ownership reference: see the counterexample.) -/
theorem release_inverse_of_allocate (p : Pool) (L : Nat) (coreId : Int)
    (now lease : Nat) (offs : List Nat)
    (hown : ∀ i, (p.descriptors i).owner = -1)
    (hreg : p.regionValid = true)
    (htail : L % HOMA_BPAGE_SIZE = 0)
    (hok : (homa_pool_allocate p L coreId now lease).1 = some offs) :
    (∀ i, (homa_pool_release_buffers (homa_pool_allocate p L
      coreId now lease).2 offs).descriptors i = p.descriptors i) ∧
    (homa_pool_release_buffers (homa_pool_allocate p L
      coreId now lease).2 offs).free_bpages = p.free_bpages := by
  by_cases hpre : p.free_bpages < L / HOMA_BPAGE_SIZE +
      (if 0 < L % HOMA_BPAGE_SIZE then 1 else 0)
  · exfalso
    have hres : (homa_pool_allocate p L coreId now lease).1 = none := by
      simp only [homa_pool_allocate]
      rw [if_pos hpre]
    rw [hres] at hok
    cases hok
  · cases hgp : homa_pool_get_pages p (L / HOMA_BPAGE_SIZE) false coreId
        now lease with
    | none =>
      exfalso
      have hres : (homa_pool_allocate p L coreId now lease).1 = none := by
        simp only [homa_pool_allocate, hgp]
        rw [if_neg hpre]
      rw [hres] at hok
      cases hok
    | some pr =>
      obtain ⟨p1, bulk⟩ := pr
      have hfree0 : ¬ p.free_bpages < L / HOMA_BPAGE_SIZE := by
        intro hlt
        exact hpre (lt_of_lt_of_le hlt (Nat.le_add_right _ _))
      have hgp2 : getPagesGo false coreId now lease (L / HOMA_BPAGE_SIZE)
          { p with free_bpages := p.free_bpages - L / HOMA_BPAGE_SIZE } []
          = some (p1, bulk) := by
        have h3 := hgp
        simp only [homa_pool_get_pages] at h3
        rw [if_neg hfree0] at h3
        exact h3
      obtain ⟨hfree1, hreg1, hhint1, halloc1, news, hlen, hpages, hnodup,
        hunch, hclaim⟩ := getPagesGo_claims coreId now lease _ _ _ _ _ hgp2
        (fun i => hown i)
      have hbulk : bulk = news := by simpa using hpages
      have hres : homa_pool_allocate p L coreId now lease
          = (some (bulk.map (fun g => g * HOMA_BPAGE_SIZE)), p1) := by
        simp only [homa_pool_allocate, hgp]
        rw [if_neg hpre, if_pos htail]
      rw [hres] at hok
      have hoffs : offs = bulk.map (fun g => g * HOMA_BPAGE_SIZE) := by
        have h2 : some (bulk.map (fun g => g * HOMA_BPAGE_SIZE))
            = some offs := hok
        exact (Option.some.inj h2).symm
      have hregion1 : p1.regionValid = true := by
        rw [hreg1]
        exact hreg
      have hrel2 : homa_pool_release_buffers p1
          (news.map (fun g => g * HOMA_BPAGE_SIZE))
          = List.foldl releaseOne p1
              (news.map (fun g => g * HOMA_BPAGE_SIZE)) := by
        simp [homa_pool_release_buffers, hregion1]
      have hout : ∀ i, i ∉ news → p1.descriptors i = p.descriptors i :=
        fun i hi => hunch i hi
      have hin : ∀ i, i ∈ news → (p.descriptors i).refs = 0 ∧
          (p.descriptors i).owner = -1 ∧
          p1.descriptors i = claimedDesc (p.descriptors i) :=
        fun i hi => ⟨(hclaim i hi).1, hown i, (hclaim i hi).2⟩
      obtain ⟨hf1, hf2⟩ :=
        releaseFold_restore p.descriptors news p1 hnodup hout hin
      rw [hres, hoffs, hbulk]
      refine ⟨fun i => ?_, ?_⟩
      · show (homa_pool_release_buffers p1
          (news.map (fun g => g * HOMA_BPAGE_SIZE))).descriptors i
          = p.descriptors i
        rw [hrel2]
        exact hf1 i
      · show (homa_pool_release_buffers p1
          (news.map (fun g => g * HOMA_BPAGE_SIZE))).free_bpages
          = p.free_bpages
        rw [hrel2, hf2, hlen]
        have hfree2 : p1.free_bpages
            = p.free_bpages - L / HOMA_BPAGE_SIZE := hfree1
        rw [hfree2]
        have hge : L / HOMA_BPAGE_SIZE ≤ p.free_bpages :=
          Nat.le_of_not_lt hfree0
        omega

/-- Witness for C9: a two-bpage message on the fresh 100-bpage pool;
releasing its two offsets restores descriptor 1 and the gauge. -/
theorem release_inverse_of_allocate_witness :
    (homa_pool_allocate pool0 131072 1 0 1000).1 = some [0, 65536] ∧
    (homa_pool_release_buffers (homa_pool_allocate pool0 131072 1 0
      1000).2 [0, 65536]).descriptors 1 = pool0.descriptors 1 ∧
    (homa_pool_release_buffers (homa_pool_allocate pool0 131072 1 0
      1000).2 [0, 65536]).free_bpages = pool0.free_bpages :=
  ⟨rfl,
   (release_inverse_of_allocate pool0 131072 1 0 1000 [0, 65536]
     (fun i => rfl) rfl rfl rfl).1 1,
   (release_inverse_of_allocate pool0 131072 1 0 1000 [0, 65536]
     (fun i => rfl) rfl rfl rfl).2⟩

/-- Counterexample for C9: a 2000-byte message takes its tail from a
fresh owned bpage, whose refs becomes 2 (data reference plus ownership
reference); releasing the message's single recorded offset leaves
refs = 1, not 0, and the gauge one below its pre-allocate value. -/
theorem release_not_inverse_counterexample :
    (homa_pool_allocate pool0 2000 1 0 1000).1 = some [0] ∧
    ((homa_pool_release_buffers (homa_pool_allocate pool0 2000 1 0
      1000).2 [0]).descriptors 0).refs = 1 ∧
    ((homa_pool_release_buffers (homa_pool_allocate pool0 2000 1 0
      1000).2 [0]).descriptors 0).refs ≠ 0 ∧
    (homa_pool_release_buffers (homa_pool_allocate pool0 2000 1 0
      1000).2 [0]).free_bpages = 99 := by
  decide

end Homa